import Mathlib

/-!
Verification development for the three-tier web-application discrete-event
simulator (`src/models.py`, `src/simulation.py`).

The Python source is shallowly embedded: pure functions become Lean
functions, the SimPy event loop becomes an explicit step function over a
simulation state, and every stateful object (`Cache`, `Server`,
`LoadBalancer`, `ThreeTierSystem`) becomes a record threaded through the
step function.  Times and rates are rationals.  The numpy global random
stream is modelled as a deterministic stream of uniform draws in `[0,1)`
indexed by `(seed, position)`; `np.random.seed` resets the stream.  The
inverse-CDF transform inside `np.random.exponential` is abstracted to a
monotone rescaling of the uniform draw: no verified claim depends on the
distribution's shape, only on the draws being a deterministic function of
the seeded stream.
-/

/-! ## Random stream (model of the numpy global generator) -/

/-- Model of the numpy global random state: a deterministic stream of
uniform draws, identified by the seed that produced it and the number of
draws already consumed. -/
structure Rng where
  seed : ℕ
  idx : ℕ
deriving DecidableEq, Repr

/-- Model of `np.random.seed(s)`: resets the global stream. -/
def npSeed (s : ℕ) : Rng := ⟨s, 0⟩

/-- One uniform draw in `[0,1)` (range `{0/8, …, 7/8}`), advancing the
stream.  Models `np.random.random()`. -/
def npRandom (r : Rng) : ℚ × Rng :=
  (((r.seed + r.idx) % 8 : ℕ) / 8, ⟨r.seed, r.idx + 1⟩)

/-- Model of `np.random.exponential(scale)`: consumes one uniform draw and
rescales it.  (The real inverse-CDF transform is abstracted to a monotone
map; only determinism and nonnegativity of the draw matter here.) -/
def npExponential (scale : ℚ) (r : Rng) : ℚ × Rng :=
  let (u, r') := npRandom r
  (scale * u, r')

/-- Index selected by a uniform draw among `n` alternatives, clamped into
range (the clamp is inert for draws in `[0,1)`).  Models the index chosen
by `np.random.choice` on an `n`-element list. -/
def chooseIndex (u : ℚ) (n : ℕ) : ℕ :=
  min (Int.toNat ⌊u * n⌋) (n - 1)

/-! ## Cache (`models.py`, class `Cache`)

`cache_store` is Python's `OrderedDict`, modelled as the list of its keys
in insertion/recency order (head = oldest).  The stored values are all
`True` and carry no information. -/

/-- `OrderedDict` assignment `d[key] = True`: a key that is already
present keeps its position (only its value is overwritten); a new key is
appended at the most-recently-inserted end. -/
def odAssign (store : List String) (key : String) : List String :=
  if key ∈ store then store else store ++ [key]

/-- `OrderedDict.move_to_end(key)`: move the key to the
most-recently-used end. -/
def odMoveToEnd (store : List String) (key : String) : List String :=
  store.erase key ++ [key]

/-- `popitem(last=False)` applied when the store just exceeded capacity:
drop the least-recently-used (front) key. -/
def odEvict (store : List String) (capacity : ℕ) : List String :=
  if capacity < store.length then store.tail else store

/-- State of `Cache` (`models.py:12`). -/
structure Cache where
  capacity : ℕ
  hit_rate : ℚ
  cache_store : List String
  hits : ℕ
  misses : ℕ
  total_requests : ℕ
deriving DecidableEq, Repr

/-- `Cache.__init__(capacity, hit_rate)`. -/
def Cache.init (capacity : ℕ) (hit_rate : ℚ) : Cache :=
  ⟨capacity, hit_rate, [], 0, 0, 0⟩

/-- `Cache.access` (`models.py:32`): draw the Bernoulli hit/miss outcome,
update counters, and update the recency store.  Note the asymmetry taken
verbatim from the source: the hit branch moves an existing key to the
most-recently-used end, while the miss branch assigns `d[key] = True`,
which leaves an existing key's position unchanged. -/
def Cache.access (c : Cache) (key : String) (rng : Rng) : Bool × Cache × Rng :=
  let c1 : Cache := { c with total_requests := c.total_requests + 1 }
  let (u, rng') := npRandom rng
  let is_hit := u < c1.hit_rate
  if is_hit then
    let c2 : Cache := { c1 with hits := c1.hits + 1 }
    let store :=
      if key ∈ c2.cache_store then odMoveToEnd c2.cache_store key
      else odEvict (c2.cache_store ++ [key]) c2.capacity
    (true, { c2 with cache_store := store }, rng')
  else
    let c2 : Cache := { c1 with misses := c1.misses + 1 }
    let store := odEvict (odAssign c2.cache_store key) c2.capacity
    (false, { c2 with cache_store := store }, rng')

/-- `Cache.get_hit_rate` (`models.py:65`). -/
def Cache.get_hit_rate (c : Cache) : ℚ :=
  if c.total_requests = 0 then 0 else (c.hits : ℚ) / (c.total_requests : ℚ)

/-- Shape of the dictionary returned by `Cache.get_metrics`. -/
structure CacheMetrics where
  total_requests : ℕ
  hits : ℕ
  misses : ℕ
  hit_rate : ℚ
  capacity : ℕ
  current_size : ℕ
deriving DecidableEq, Repr

/-- `Cache.get_metrics` (`models.py:71`). -/
def Cache.get_metrics (c : Cache) : CacheMetrics :=
  ⟨c.total_requests, c.hits, c.misses, c.get_hit_rate, c.capacity, c.cache_store.length⟩

/-- Fold a sequence of keys through `Cache.access`, threading the random
stream: the observable effect of any sequence of accesses. -/
def Cache.runAccesses (c : Cache) (keys : List String) (rng : Rng) : Cache × Rng :=
  match keys with
  | [] => (c, rng)
  | k :: ks => Cache.runAccesses (c.access k rng).2.1 ks (c.access k rng).2.2

/-! ## Server (`models.py`, class `Server`)

A `Server` wraps a capacity-1 `simpy.Resource`.  The resource is inlined:
`users` is the single slot holder (request id), `waitq` the FIFO of
waiting request ids.  The unused `queue_times` field of the source is
omitted (it is initialised and never written). -/

/-- State of `Server` (`models.py:83`) with its capacity-1 resource. -/
structure Server where
  name : String
  service_rate : ℚ
  queue_lengths : List (ℚ × ℕ)
  service_times : List ℚ
  response_times : List ℚ
  arrivals : ℕ
  departures : ℕ
  total_wait_time : ℚ
  total_service_time : ℚ
  users : Option ℕ
  waitq : List ℕ
deriving DecidableEq, Repr

/-- `Server.__init__` (`models.py:86`). -/
def Server.init (name : String) (service_rate : ℚ) : Server :=
  ⟨name, service_rate, [], [], [], 0, 0, 0, 0, none, []⟩

/-- `Server.record_queue_length` (`models.py:114`): sample
`(now, number of waiters)`; the request in service is not counted. -/
def Server.record_queue_length (s : Server) (now : ℚ) : Server :=
  { s with queue_lengths := s.queue_lengths ++ [(now, s.waitq.length)] }

/-- Arithmetic mean (`np.mean`) of a list of rationals; `0` for the empty
list (all call sites in the source guard the empty case). -/
def listMean (l : List ℚ) : ℚ := l.sum / (l.length : ℚ)

/-- `Server.get_utilization` (`models.py:119`). -/
def Server.get_utilization (s : Server) (now : ℚ) : ℚ :=
  if now = 0 then 0 else s.total_service_time / now

/-- Area under the left-continuous step function of queue-length samples
(`models.py:130`). -/
def qlArea : List (ℚ × ℕ) → ℚ
  | (t1, q1) :: (t2, q2) :: rest => (q1 : ℚ) * (t2 - t1) + qlArea ((t2, q2) :: rest)
  | _ => 0

/-- `Server.get_avg_queue_length` (`models.py:125`). -/
def Server.get_avg_queue_length (s : Server) (now : ℚ) : ℚ :=
  if s.queue_lengths.length < 2 then 0
  else if 0 < now then qlArea s.queue_lengths / now else 0

/-- `Server.get_avg_response_time` (`models.py:137`). -/
def Server.get_avg_response_time (s : Server) : ℚ :=
  if s.response_times = [] then 0 else listMean s.response_times

/-- `Server.get_throughput` (`models.py:141`). -/
def Server.get_throughput (s : Server) (now : ℚ) : ℚ :=
  if 0 < now then (s.departures : ℚ) / now else 0

/-- Shape of the dictionary returned by `Server.get_metrics`. -/
structure ServerMetrics where
  utilization : ℚ
  avg_queue_length : ℚ
  avg_response_time : ℚ
  throughput : ℚ
  arrivals : ℕ
  departures : ℕ
deriving DecidableEq, Repr

/-- `Server.get_metrics` (`models.py:145`). -/
def Server.get_metrics (s : Server) (now : ℚ) : ServerMetrics :=
  ⟨s.get_utilization now, s.get_avg_queue_length now, s.get_avg_response_time,
   s.get_throughput now, s.arrivals, s.departures⟩

/-! ## LoadBalancer (`models.py`, class `LoadBalancer`) -/

/-- State of `LoadBalancer` (`models.py:157`). -/
structure LoadBalancer where
  strategy : String
  current_index : ℕ
  total_requests : ℕ
deriving DecidableEq, Repr

/-- `LoadBalancer.__init__` (`models.py:160`). -/
def LoadBalancer.init (strategy : String) : LoadBalancer := ⟨strategy, 0, 0⟩

/-- `len(s.resource.queue) + len(s.resource.users)`: waiting plus
in-service count of a server, as read by the `least_connections`
strategy. -/
def Server.connections (s : Server) : ℕ :=
  s.waitq.length + (if s.users.isSome then 1 else 0)

/-- Minimum of a list of naturals relative to a first element
(`min(...)` over a nonempty generator in the source). -/
def natListMin (a : ℕ) (l : List ℕ) : ℕ := l.foldl min a

/-- `min(len(s.resource.queue) + len(s.resource.users) for s in servers)`
over a nonempty server list `s0 :: rest`. -/
def minConnections (s0 : Server) (rest : List Server) : ℕ :=
  natListMin s0.connections (rest.map Server.connections)

/-- The `candidates` list of the `least_connections` branch: indices of
the servers whose connection count equals `minc`. -/
def lcCands (servers : List Server) (minc : ℕ) : List ℕ :=
  (List.range servers.length).filter
    (fun i => (servers.map Server.connections).getD i 0 = minc)

/-- `LoadBalancer.select_server` (`models.py:171`), returning the index
of the chosen server in the list (the source returns the object itself;
objects are identified with their list position).  The unrecognised
strategy branch of the source calls `select_server` recursively with the
strategy unchanged, so the embedding takes recursion fuel; `none` models
a raised exception: fuel exhaustion (Python's `RecursionError`), an
out-of-range index, or `min`/choice over an empty server list. -/
def LoadBalancer.select_server :
    ℕ → LoadBalancer → List Server → Rng → Option (ℕ × LoadBalancer × Rng)
  | 0, _, _, _ => none
  | fuel + 1, lb, servers, rng =>
    let lb1 : LoadBalancer := { lb with total_requests := lb.total_requests + 1 }
    if lb1.strategy = "round_robin" then
      match servers.get? lb1.current_index with
      | none => none
      | some _ =>
        some (lb1.current_index,
          { lb1 with current_index := (lb1.current_index + 1) % servers.length }, rng)
    else if lb1.strategy = "random" then
      match servers with
      | [] => none
      | _ :: _ =>
        let (u, rng') := npRandom rng
        some (chooseIndex u servers.length, lb1, rng')
    else if lb1.strategy = "least_connections" then
      match servers with
      | [] => none
      | s0 :: rest =>
        match lcCands servers (minConnections s0 rest) with
        | [] => none
        | [i] => some (i, lb1, rng)
        | i :: _ :: _ =>
          let (u, rng') := npRandom rng
          some ((lcCands servers (minConnections s0 rest)).getD
            (chooseIndex u (lcCands servers (minConnections s0 rest)).length) i, lb1, rng')
    else
      LoadBalancer.select_server fuel lb1 servers rng

/-! ## Lemmas about the cache recency store -/

/-- Moving a present key to the end does not change the store size. -/
theorem length_odMoveToEnd {store : List String} {key : String} (h : key ∈ store) :
    (odMoveToEnd store key).length = store.length := by
  have hpos : 0 < store.length := List.length_pos.mpr (List.ne_nil_of_mem h)
  simp [odMoveToEnd, List.length_erase_of_mem h]
  omega

/-- Eviction brings a store of size at most `cap + 1` back within `cap`. -/
theorem length_odEvict_le {store : List String} {cap : ℕ} (h : store.length ≤ cap + 1) :
    (odEvict store cap).length ≤ cap := by
  unfold odEvict
  split
  · simp; omega
  · omega

/-- `Cache.access` never changes the capacity. -/
theorem Cache.access_capacity (c : Cache) (key : String) (rng : Rng) :
    (c.access key rng).2.1.capacity = c.capacity := by
  simp only [Cache.access, npRandom]
  by_cases hu : ((((rng.seed + rng.idx) % 8 : ℕ) : ℚ) / 8) < c.hit_rate <;> simp [hu]

/-- One access keeps the store within capacity. -/
theorem Cache.access_store_le (c : Cache) (key : String) (rng : Rng)
    (h : c.cache_store.length ≤ c.capacity) :
    (c.access key rng).2.1.cache_store.length ≤ c.capacity := by
  simp only [Cache.access, npRandom]
  by_cases hu : ((((rng.seed + rng.idx) % 8 : ℕ) : ℚ) / 8) < c.hit_rate
  · by_cases hk : key ∈ c.cache_store
    · simpa [hu, hk] using (@length_odMoveToEnd c.cache_store key hk).le.trans h
    · simp only [hu, hk, if_true, if_false]
      simpa using length_odEvict_le (by simp; omega)
  · simp only [hu, if_false]
    refine le_trans (le_of_eq rfl) (length_odEvict_le ?_)
    by_cases hk : key ∈ c.cache_store <;> simp [odAssign, hk] <;> omega

/-- A whole access sequence keeps the store within capacity and the
capacity fixed. -/
theorem Cache.runAccesses_inv :
    ∀ (keys : List String) (c : Cache) (rng : Rng),
      c.cache_store.length ≤ c.capacity →
      (c.runAccesses keys rng).1.cache_store.length ≤ c.capacity ∧
      (c.runAccesses keys rng).1.capacity = c.capacity
  | [], c, rng, h => by simpa [Cache.runAccesses] using h
  | k :: ks, c, rng, h => by
    have hcap := Cache.access_capacity c k rng
    have hle := Cache.access_store_le c k rng h
    have ih := Cache.runAccesses_inv ks (c.access k rng).2.1 (c.access k rng).2.2
      (by rw [hcap]; exact hle)
    rw [hcap] at ih
    simpa [Cache.runAccesses] using ih

/-- Claim C6: for a cache constructed with positive capacity, no sequence
of accesses can leave more than `capacity` keys in the store: the
`current_size` reported by `get_metrics` is at most `capacity` after every
access. -/
theorem c6_cache_bounded_occupancy (capacity : ℕ) (hit_rate : ℚ)
    (h : 0 < capacity) (keys : List String) (rng : Rng) :
    ((Cache.init capacity hit_rate).runAccesses keys rng).1.get_metrics.current_size ≤ capacity := by
  have h2 := Cache.runAccesses_inv keys (Cache.init capacity hit_rate) rng (by simp [Cache.init])
  simpa [Cache.get_metrics, Cache.init] using h2.1

/-- Witness for C6 at a concrete input. -/
theorem c6_cache_bounded_occupancy_witness :
    ((Cache.init 2 1).runAccesses ["a", "b", "c"] ⟨0, 0⟩).1.get_metrics.current_size ≤ 2 :=
  c6_cache_bounded_occupancy 2 1 (by norm_num) ["a", "b", "c"] ⟨0, 0⟩

/-- Claim C9: `get_hit_rate` is `hits / total_requests`, and `0` when
`total_requests = 0` (no division-by-zero error). -/
theorem c9_get_hit_rate_ok (c : Cache) :
    (c.total_requests = 0 → c.get_hit_rate = 0) ∧
    (c.total_requests ≠ 0 → c.get_hit_rate * (c.total_requests : ℚ) = (c.hits : ℚ)) := by
  constructor
  · intro h; simp [Cache.get_hit_rate, h]
  · intro h
    simp only [Cache.get_hit_rate, h, if_false]
    exact div_mul_cancel₀ _ (by exact_mod_cast h)

/-- Witness for C9: the zero-requests case and a nonzero case. -/
theorem c9_get_hit_rate_ok_witness :
    (Cache.init 100 1).get_hit_rate = 0 ∧
    Cache.get_hit_rate ⟨100, 1, [], 3, 1, 4⟩ * (4 : ℚ) = 3 :=
  ⟨(c9_get_hit_rate_ok (Cache.init 100 1)).1 rfl,
   by simpa using (c9_get_hit_rate_ok ⟨100, 1, [], 3, 1, 4⟩).2 (by norm_num)⟩

/-- Counterexample to claim C4: from the same cache state `["a","b"]`
(with `"a"` present) and the same drawn uniform value, the hit branch
moves `"a"` to the most-recently-used end, while the miss branch leaves
the recency order unchanged — the recency bookkeeping of the two outcomes
is not identical.  (`hit_rate = 1` forces a hit, `hit_rate = 0` a miss.) -/
theorem c4_recency_counterexample :
    (Cache.access ⟨100, 1, ["a", "b"], 0, 0, 0⟩ "a" ⟨0, 0⟩).2.1.cache_store = ["b", "a"] ∧
    (Cache.access ⟨100, 0, ["a", "b"], 0, 0, 0⟩ "a" ⟨0, 0⟩).2.1.cache_store = ["a", "b"] ∧
    (["a", "b"] : List String) ≠ ["b", "a"] :=
  ⟨by norm_num [Cache.access, npRandom, odMoveToEnd, List.erase],
   by norm_num [Cache.access, npRandom, odAssign, odEvict],
   by decide⟩

/-- Claim C4 as amended: hit and miss share the insertion/eviction
bookkeeping only when the key is absent; when the key is already present
(and the store is within capacity, as in every reachable state), a hit
moves it to the most-recently-used end while a miss leaves the store
unchanged.  The hit/miss counters differ as the claim states. -/
theorem c4_recency_amended (c : Cache) (key : String) (rng : Rng)
    (hinv : c.cache_store.length ≤ c.capacity) :
    ((c.access key rng).2.1.total_requests = c.total_requests + 1) ∧
    ((c.access key rng).1 = true →
      (c.access key rng).2.1.hits = c.hits + 1 ∧ (c.access key rng).2.1.misses = c.misses) ∧
    ((c.access key rng).1 = false →
      (c.access key rng).2.1.misses = c.misses + 1 ∧ (c.access key rng).2.1.hits = c.hits) ∧
    (key ∉ c.cache_store →
      (c.access key rng).2.1.cache_store = odEvict (c.cache_store ++ [key]) c.capacity) ∧
    (key ∈ c.cache_store →
      (c.access key rng).2.1.cache_store =
        if (c.access key rng).1 then odMoveToEnd c.cache_store key else c.cache_store) := by
  simp only [Cache.access, npRandom]
  by_cases hu : ((((rng.seed + rng.idx) % 8 : ℕ) : ℚ) / 8) < c.hit_rate
  · refine ⟨by simp [hu], by simp [hu], by simp [hu], ?_, ?_⟩
    · intro hk; simp [hu, hk]
    · intro hk; simp [hu, hk]
  · refine ⟨by simp [hu], by simp [hu], by simp [hu], ?_, ?_⟩
    · intro hk; simp [hu, odAssign, hk]
    · intro hk
      simp [hu, odAssign, hk, odEvict, Nat.not_lt.mpr hinv]

/-- Witness for the amended C4 on a concrete present key. -/
theorem c4_recency_amended_witness :
    (Cache.access ⟨100, 0, ["a", "b"], 0, 0, 0⟩ "a" ⟨0, 0⟩).2.1.cache_store =
      if (Cache.access ⟨100, 0, ["a", "b"], 0, 0, 0⟩ "a" ⟨0, 0⟩).1 then
        odMoveToEnd ["a", "b"] "a" else ["a", "b"] :=
  (c4_recency_amended ⟨100, 0, ["a", "b"], 0, 0, 0⟩ "a" ⟨0, 0⟩ (by norm_num)).2.2.2.2
    (by norm_num)

/-! ## Round-robin dispatch (claim C7) -/

/-- One `select_server` call under the `round_robin` strategy with a
valid cursor: returns the server at the cursor and advances the cursor
cyclically. -/
theorem select_server_rr (servers : List Server) (c m : ℕ) (h : c < servers.length) (rng : Rng) :
    LoadBalancer.select_server 1 ⟨"round_robin", c, m⟩ servers rng =
      some (c, ⟨"round_robin", (c + 1) % servers.length, m + 1⟩, rng) := by
  simp [LoadBalancer.select_server, List.getElem?_eq_getElem h]

/-- The sequence of server indices chosen by `N` successive
`select_server` calls (the trace of dispatch decisions). -/
def lbTrace (servers : List Server) : ℕ → LoadBalancer → List ℕ
  | 0, _ => []
  | n + 1, lb =>
    match LoadBalancer.select_server 1 lb servers ⟨0, 0⟩ with
    | some (i, lb2, _) => i :: lbTrace servers n lb2
    | none => []

/-- The round-robin trace from cursor `c` is the cyclic index sequence. -/
theorem lbTrace_rr (servers : List Server) :
    ∀ (n c m : ℕ), c < servers.length →
      lbTrace servers n ⟨"round_robin", c, m⟩ =
        (List.range n).map (fun j => (c + j) % servers.length)
  | 0, c, m, h => by simp [lbTrace]
  | n + 1, c, m, h => by
    have hk : 0 < servers.length := lt_of_le_of_lt (Nat.zero_le c) h
    have h2 : (c + 1) % servers.length < servers.length := Nat.mod_lt _ hk
    have ih := lbTrace_rr servers n ((c + 1) % servers.length) (m + 1) h2
    simp only [lbTrace, select_server_rr servers c m h, ih, List.range_succ_eq_map,
      List.map_cons, List.map_map]
    congr 1
    · exact (Nat.mod_eq_of_lt h).symm
    · apply List.map_congr_left
      intro j _
      simp only [Function.comp]
      rw [Nat.mod_add_mod]
      congr 1
      omega

/-- Counting: each residue `i < k` appears exactly `m` times among the
residues of `0, …, m·k − 1`. -/
theorem count_range_mod : ∀ (m k i : ℕ), i < k →
    ((List.range (m * k)).map (fun j => j % k)).count i = m
  | 0, k, i, hi => by simp
  | m + 1, k, i, hi => by
    have ih := count_range_mod m k i hi
    have hsplit : (m + 1) * k = m * k + k := by ring
    rw [hsplit, List.range_add, List.map_append, List.count_append, ih, List.map_map]
    have hmap : (List.range k).map ((fun j => j % k) ∘ (fun j => m * k + j)) =
        (List.range k).map id := by
      apply List.map_congr_left
      intro j hj
      have hj' : j < k := List.mem_range.mp hj
      simp only [Function.comp, id]
      rw [Nat.mul_comm, Nat.mul_add_mod, Nat.mod_eq_of_lt hj']
    rw [hmap, List.map_id, List.count_eq_one_of_mem (List.nodup_range k) (List.mem_range.mpr hi)]

/-- Claim C7: starting from a fresh round-robin load balancer over `k`
servers, `m·k` successive `select_server` calls choose the servers in
deterministic cyclic order starting at server `0` (call `j` picks server
`j mod k`), and each server is chosen exactly `m` times.  The trace does
not depend on the servers' load state. -/
theorem c7_round_robin_fairness (servers : List Server) (m : ℕ) (hk : 0 < servers.length) :
    (lbTrace servers (m * servers.length) (LoadBalancer.init "round_robin")).length =
        m * servers.length ∧
    (∀ j < m * servers.length,
      (lbTrace servers (m * servers.length) (LoadBalancer.init "round_robin")).get? j =
        some (j % servers.length)) ∧
    (∀ i < servers.length,
      (lbTrace servers (m * servers.length) (LoadBalancer.init "round_robin")).count i = m) := by
  have htr := lbTrace_rr servers (m * servers.length) 0 0 hk
  have htr' : lbTrace servers (m * servers.length) (LoadBalancer.init "round_robin") =
      (List.range (m * servers.length)).map (fun j => j % servers.length) := by
    simpa [LoadBalancer.init] using htr
  refine ⟨by simp [htr'], ?_, ?_⟩
  · intro j hj
    simp [htr', List.getElem?_map, List.getElem?_range hj]
  · intro i hi
    rw [htr', count_range_mod m servers.length i hi]

/-- Witness for C7: two servers, four requests, server `0` chosen twice. -/
theorem c7_round_robin_fairness_witness :
    (lbTrace [Server.init "app_0" 60, Server.init "app_1" 60] (2 * 2)
      (LoadBalancer.init "round_robin")).count 0 = 2 :=
  (c7_round_robin_fairness [Server.init "app_0" 60, Server.init "app_1" 60] 2
    (by norm_num)).2.2 0 (by norm_num)

/-! ## Least-connections dispatch (claim C8) -/

/-- `natListMin` is bounded by its seed. -/
theorem natListMin_le_self : ∀ (l : List ℕ) (a : ℕ), natListMin a l ≤ a
  | [], a => le_refl a
  | b :: l, a => by
    have := natListMin_le_self l (min a b)
    simpa [natListMin] using this.trans (min_le_left a b)

/-- `natListMin` is bounded by every list element. -/
theorem natListMin_le_mem : ∀ (l : List ℕ) (a x : ℕ), x ∈ l → natListMin a l ≤ x
  | b :: l, a, x, hx => by
    rcases List.mem_cons.mp hx with h | h
    · subst h
      have := natListMin_le_self l (min a x)
      simpa [natListMin] using this.trans (min_le_right a x)
    · simpa [natListMin] using natListMin_le_mem l (min a b) x h

/-- `getD` with a fallback from the list always returns an element of the
list. -/
theorem getD_mem_of_mem {l : List ℕ} {d : ℕ} (n : ℕ) (hd : d ∈ l) : l.getD n d ∈ l := by
  rcases h : l[n]? with _ | x
  · simpa [List.getD, h] using hd
  · have := List.getElem?_mem h
    simpa [List.getD, h] using this

/-- Any member of the least-connections candidate list points at a server
whose connection count is minimal over all servers. -/
theorem lcCands_spec (s0 : Server) (rest : List Server) (i : ℕ)
    (hi : i ∈ lcCands (s0 :: rest) (minConnections s0 rest)) :
    ∃ s, (s0 :: rest).get? i = some s ∧
      ∀ s2 ∈ s0 :: rest, s.connections ≤ s2.connections := by
  have hmem := List.mem_filter.mp hi
  have hlt : i < (s0 :: rest).length := List.mem_range.mp hmem.1
  have hval : ((s0 :: rest).map Server.connections).getD i 0 = minConnections s0 rest := by
    simpa using hmem.2
  refine ⟨(s0 :: rest).get ⟨i, hlt⟩, by simp [List.get?_eq_get hlt], ?_⟩
  have hconn : ((s0 :: rest).get ⟨i, hlt⟩).connections = minConnections s0 rest := by
    rw [← hval]
    have hmlt : i < ((s0 :: rest).map Server.connections).length := by simpa using hlt
    rw [List.getD_eq_getElem _ _ hmlt]
    simp only [List.get_eq_getElem, ← List.map_cons, List.getElem_map]
  intro s2 hs2
  rw [hconn]
  rcases List.mem_cons.mp hs2 with h | h
  · subst h; exact natListMin_le_self _ _
  · exact natListMin_le_mem _ _ _ (List.mem_map_of_mem Server.connections h)

/-- Unfolding of the `least_connections` branch of `select_server` on a
nonempty server list. -/
theorem select_server_lc (fuel ci tr : ℕ) (s0 : Server) (rest : List Server) (rng : Rng) :
    LoadBalancer.select_server (fuel + 1) ⟨"least_connections", ci, tr⟩ (s0 :: rest) rng =
      match lcCands (s0 :: rest) (minConnections s0 rest) with
      | [] => none
      | [i] => some (i, ⟨"least_connections", ci, tr + 1⟩, rng)
      | i :: _ :: _ =>
        some ((lcCands (s0 :: rest) (minConnections s0 rest)).getD
            (chooseIndex (npRandom rng).1 (lcCands (s0 :: rest) (minConnections s0 rest)).length) i,
          ⟨"least_connections", ci, tr + 1⟩, (npRandom rng).2) := rfl

/-- Claim C8: whenever `select_server` under the `least_connections`
strategy returns a server, that server's waiting-plus-in-service count is
minimal over all servers at the instant of assignment (ties are resolved
inside the candidate list of minimal-count servers). -/
theorem c8_least_connections_safety (fuel : ℕ) (lb : LoadBalancer) (servers : List Server)
    (rng : Rng) (i : ℕ) (lb2 : LoadBalancer) (rng2 : Rng)
    (hs : lb.strategy = "least_connections")
    (h : LoadBalancer.select_server fuel lb servers rng = some (i, lb2, rng2)) :
    ∃ s, servers.get? i = some s ∧ ∀ s2 ∈ servers, s.connections ≤ s2.connections := by
  obtain ⟨st, ci, tr⟩ := lb
  simp only [LoadBalancer] at hs
  subst hs
  match fuel, servers with
  | 0, servers => simp [LoadBalancer.select_server] at h
  | fuel + 1, [] => exact absurd h (by rw [show LoadBalancer.select_server (fuel + 1)
      ⟨"least_connections", ci, tr⟩ [] rng = none from rfl]; simp)
  | fuel + 1, s0 :: rest =>
    rw [select_server_lc] at h
    split at h
    · exact absurd h (by simp)
    · rename_i i1 heq
      simp only [Option.some.injEq, Prod.mk.injEq] at h
      obtain ⟨hii, -⟩ := h
      refine lcCands_spec s0 rest i ?_
      rw [heq, ← hii]
      exact List.mem_singleton_self i1
    · rename_i i1 i2 tl heq
      simp only [Option.some.injEq, Prod.mk.injEq] at h
      obtain ⟨hii, -⟩ := h
      refine lcCands_spec s0 rest i ?_
      rw [← hii, heq]
      exact getD_mem_of_mem _ (heq ▸ List.mem_cons_self i1 _)

/-- Witness for C8 at a concrete input: two servers, one with a busy slot
and one waiter, one idle; the idle server is chosen. -/
theorem c8_least_connections_safety_witness :
    ∃ s, [⟨"app_0", 60, [], [], [], 0, 0, 0, 0, some 7, [8]⟩,
          Server.init "app_1" 60].get? 1 = some s ∧
      ∀ s2 ∈ [⟨"app_0", 60, [], [], [], 0, 0, 0, 0, some 7, [8]⟩,
          Server.init "app_1" 60], s.connections ≤ s2.connections :=
  c8_least_connections_safety 1 (LoadBalancer.init "least_connections")
    [⟨"app_0", 60, [], [], [], 0, 0, 0, 0, some 7, [8]⟩, Server.init "app_1" 60]
    ⟨0, 0⟩ 1 ⟨"least_connections", 0, 1⟩ ⟨0, 0⟩ rfl (by decide)

/-! ## Unknown-strategy behaviour of `select_server` (claim C10) -/

/-- One unfolding of the unrecognised-strategy branch: the "default to
round robin" comment in the source notwithstanding, the fallthrough calls
`select_server` recursively with the strategy string unchanged, after
incrementing `total_requests`. -/
theorem select_server_unknown_step (fuel : ℕ) (lb : LoadBalancer) (servers : List Server)
    (rng : Rng) (h1 : lb.strategy ≠ "round_robin") (h2 : lb.strategy ≠ "random")
    (h3 : lb.strategy ≠ "least_connections") :
    LoadBalancer.select_server (fuel + 1) lb servers rng =
      LoadBalancer.select_server fuel
        { lb with total_requests := lb.total_requests + 1 } servers rng := by
  simp [LoadBalancer.select_server, h1, h2, h3]

/-- With an unrecognised strategy, `select_server` exhausts any amount of
recursion fuel and never returns a server. -/
theorem select_server_unknown_none : ∀ (fuel : ℕ) (lb : LoadBalancer)
    (servers : List Server) (rng : Rng), lb.strategy ≠ "round_robin" →
    lb.strategy ≠ "random" → lb.strategy ≠ "least_connections" →
    LoadBalancer.select_server fuel lb servers rng = none
  | 0, lb, servers, rng, _, _, _ => rfl
  | fuel + 1, lb, servers, rng, h1, h2, h3 => by
    rw [select_server_unknown_step fuel lb servers rng h1 h2 h3]
    exact select_server_unknown_none fuel _ servers rng h1 h2 h3

/-- Claim C10: for a strategy string outside
`{round_robin, random, least_connections}`, `select_server` never
terminates with a server — every recursion budget is exhausted (modelling
Python's unbounded recursion / `RecursionError`), each recursive call
increments `total_requests`, and round-robin behaviour is never
substituted. -/
theorem c10_unknown_strategy_diverges (lb : LoadBalancer) (servers : List Server) (rng : Rng)
    (h1 : lb.strategy ≠ "round_robin") (h2 : lb.strategy ≠ "random")
    (h3 : lb.strategy ≠ "least_connections") :
    (∀ fuel, LoadBalancer.select_server fuel lb servers rng = none) ∧
    (∀ fuel, LoadBalancer.select_server (fuel + 1) lb servers rng =
      LoadBalancer.select_server fuel
        { lb with total_requests := lb.total_requests + 1 } servers rng) :=
  ⟨fun fuel => select_server_unknown_none fuel lb servers rng h1 h2 h3,
   fun fuel => select_server_unknown_step fuel lb servers rng h1 h2 h3⟩

/-- Witness for C10: the literal strategy `"bogus"` on a nonempty server
list exhausts a concrete fuel budget. -/
theorem c10_unknown_strategy_diverges_witness :
    LoadBalancer.select_server 3 (LoadBalancer.init "bogus")
      [Server.init "app_0" 60] ⟨0, 0⟩ = none :=
  (c10_unknown_strategy_diverges (LoadBalancer.init "bogus") [Server.init "app_0" 60] ⟨0, 0⟩
    (by decide) (by decide) (by decide)).1 3

/-! ## ThreeTierSystem (`models.py`, class `ThreeTierSystem`) -/

/-- Addresses of the servers owned by a `ThreeTierSystem`: the `i`-th
application server, the cache server, or the database server. -/
inductive Tier where
  | app (i : ℕ)
  | cacheT
  | db
deriving DecidableEq, Repr

/-- State of `ThreeTierSystem` (`models.py:202`). -/
structure ThreeTierSystem where
  num_app_servers : ℕ
  load_balancing_strategy : String
  app_servers : List Server
  load_balancer : LoadBalancer
  db_server : Server
  cache_enabled : Bool
  cache : Option Cache
  cache_server : Option Server
  total_requests : ℕ
  completed_requests : ℕ
  end_to_end_times : List ℚ
deriving DecidableEq, Repr

/-- `ThreeTierSystem.__init__` (`models.py:205`): the cache always has
capacity 100. -/
def ThreeTierSystem.init (app_service_rate db_service_rate : ℚ) (cache_enabled : Bool)
    (cache_hit_rate cache_service_rate : ℚ) (num_app_servers : ℕ)
    (load_balancing_strategy : String) : ThreeTierSystem :=
  { num_app_servers := num_app_servers
    load_balancing_strategy := load_balancing_strategy
    app_servers := (List.range num_app_servers).map
      (fun i => Server.init ("app_" ++ toString i) app_service_rate)
    load_balancer := LoadBalancer.init load_balancing_strategy
    db_server := Server.init "db" db_service_rate
    cache_enabled := cache_enabled
    cache := if cache_enabled then some (Cache.init 100 cache_hit_rate) else none
    cache_server := if cache_enabled then some (Server.init "cache" cache_service_rate) else none
    total_requests := 0
    completed_requests := 0
    end_to_end_times := [] }

/-- The server at a tier address, if it exists. -/
def getServer (sys : ThreeTierSystem) : Tier → Option Server
  | .app i => sys.app_servers.get? i
  | .cacheT => sys.cache_server
  | .db => some sys.db_server

/-- Replace the element at one position of a list (identity when out of
range). -/
def listModify (f : α → α) : ℕ → List α → List α
  | _, [] => []
  | 0, x :: xs => f x :: xs
  | n + 1, x :: xs => x :: listModify f n xs

/-- Apply an update to the server at a tier address. -/
def modServer (t : Tier) (f : Server → Server) (sys : ThreeTierSystem) : ThreeTierSystem :=
  match t with
  | .app i => { sys with app_servers := listModify f i sys.app_servers }
  | .cacheT => { sys with cache_server := sys.cache_server.map f }
  | .db => { sys with db_server := f sys.db_server }

/-! ## Event scheduler (`simpy.Environment` and `simulation.py`)

The SimPy environment is embedded as an explicit event set ordered by
`(scheduled_time, sequence_number)` with insertion-order tie-break (the
ordering §3 of the specification fixes; SimPy's internal event priorities
are abstracted away — no verified claim concerns equal-time ordering).
Each event resumes one suspended continuation of `request_generator` or
`request_process`:

* `genInit` — the `request_generator` process starts;
* `genWake` — the generator resumes after its inter-arrival timeout;
* `procInit` — a spawned `request_process` starts (its `select_server`
  call and arrival at the chosen app server);
* `granted rid t` — request `rid` acquires the resource slot of tier `t`
  (the resumption after `yield req`);
* `svcDone rid t` — the service timeout of `rid` at tier `t` elapses. -/

/-- The kinds of pending events. -/
inductive Ev where
  | genInit
  | genWake
  | procInit (rid : ℕ)
  | granted (rid : ℕ) (t : Tier)
  | svcDone (rid : ℕ) (t : Tier)
deriving DecidableEq, Repr

/-- A scheduled event: time, insertion sequence number, payload. -/
structure Evt where
  time : ℚ
  seq : ℕ
  ev : Ev
deriving DecidableEq, Repr

/-- Insert an event keeping the list sorted by `(time, seq)`. -/
def insertEvt (e : Evt) : List Evt → List Evt
  | [] => [e]
  | x :: xs =>
    if e.time < x.time ∨ (e.time = x.time ∧ e.seq < x.seq) then e :: x :: xs
    else x :: insertEvt e xs

/-- Local state of one `request_process` coroutine: its `arrival_time`
argument and the local variables `wait_start`, `wait_time` and
`service_time` of the current tier visit. -/
structure ReqInfo where
  arrival_time : ℚ
  wait_start : ℚ
  cur_wait : ℚ
  cur_service : ℚ
deriving DecidableEq, Repr

/-- Whole simulation state: clock, event set, random stream, system and
per-request coroutine states. -/
structure SimSt where
  now : ℚ
  seqn : ℕ
  events : List Evt
  rng : Rng
  sys : ThreeTierSystem
  reqs : List (ℕ × ReqInfo)
  next_request_id : ℕ
deriving DecidableEq, Repr

/-- Schedule an event at time `t`. -/
def sched (t : ℚ) (ev : Ev) (st : SimSt) : SimSt :=
  { st with events := insertEvt ⟨t, st.seqn, ev⟩ st.events, seqn := st.seqn + 1 }

/-- Read a request's coroutine state (default for ids never spawned;
spawned ids are always present). -/
def getReq (l : List (ℕ × ReqInfo)) (rid : ℕ) : ReqInfo :=
  match l.find? (fun p => p.1 = rid) with
  | some p => p.2
  | none => ⟨0, 0, 0, 0⟩

/-- Update a request's coroutine state. -/
def setReq (rid : ℕ) (f : ReqInfo → ReqInfo) : List (ℕ × ReqInfo) → List (ℕ × ReqInfo)
  | [] => []
  | p :: ps => if p.1 = rid then (p.1, f p.2) :: ps else p :: setReq rid f ps

/-- Replace the random stream. -/
def setRng (r : Rng) (st : SimSt) : SimSt := { st with rng := r }

/-- Admission bookkeeping of `request_generator` (`simulation.py:118`):
count the request, create its coroutine state, advance the id counter,
and advance the random stream by the inter-arrival draw. -/
def admitReq (rid : ℕ) (tm : ℚ) (r : Rng) (st : SimSt) : SimSt :=
  { st with
    sys := { st.sys with total_requests := st.sys.total_requests + 1 }
    reqs := (rid, ⟨tm, 0, 0, 0⟩) :: st.reqs
    next_request_id := rid + 1
    rng := r }

/-- Store the load-balancer state and random stream returned by
`select_server`. -/
def setLB (lb2 : LoadBalancer) (r : Rng) (st : SimSt) : SimSt :=
  { st with sys := { st.sys with load_balancer := lb2 }, rng := r }

/-- Store the cache state and random stream returned by `Cache.access`. -/
def setCacheRng (c : Cache) (r : Rng) (st : SimSt) : SimSt :=
  { st with sys := { st.sys with cache := some c }, rng := r }

/-- Bookkeeping at the resumption after `yield req`
(`simulation.py:34-38`): accumulate the wait, remember the wait and the
drawn service time in the coroutine state, advance the random stream. -/
def waitSvcUpd (t : Tier) (wait svc : ℚ) (rid : ℕ) (r : Rng) (st : SimSt) : SimSt :=
  { st with
    rng := r
    sys := modServer t
      (fun sv => { sv with total_wait_time := sv.total_wait_time + wait }) st.sys
    reqs := setReq rid (fun i => { i with cur_wait := wait, cur_service := svc }) st.reqs }

/-- The configuration arguments of `run_simulation` (`simulation.py:125`)
other than the seed. -/
structure SimConfig where
  arrival_rate : ℚ
  app_service_rate : ℚ
  db_service_rate : ℚ
  simulation_time : ℚ
  cache_enabled : Bool
  cache_hit_rate : ℚ
  cache_service_rate : ℚ
  num_app_servers : ℕ
  load_balancing_strategy : String
deriving DecidableEq, Repr

/-- The arrival bookkeeping of `simulation.py:28-29` (and the analogous
lines for the cache/db tiers): count the arrival and sample the queue
length. -/
def arrRecUpd (now : ℚ) (sv : Server) : Server :=
  Server.record_queue_length { sv with arrivals := sv.arrivals + 1 } now

/-- Arrival bookkeeping followed by seizing the free capacity-1 slot. -/
def seizeUpd (now : ℚ) (rid : ℕ) (sv : Server) : Server :=
  { arrRecUpd now sv with users := some rid }

/-- Arrival bookkeeping followed by joining the FIFO queue. -/
def enqueueUpd (now : ℚ) (rid : ℕ) (sv : Server) : Server :=
  { arrRecUpd now sv with waitq := (arrRecUpd now sv).waitq ++ [rid] }

/-- Arrival of request `rid` at tier `t` followed by
`resource.request()` (`simulation.py:28` / `54` / `75`): count the
arrival, sample the queue length, record `wait_start = now`, then either
seize the free slot (scheduling the `granted` resumption at the current
time) or join the FIFO queue. -/
def arriveAcquire (t : Tier) (rid : ℕ) (st : SimSt) : SimSt :=
  match getServer st.sys t with
  | none => st
  | some s =>
    let st1 : SimSt := { st with
      reqs := setReq rid (fun i => { i with wait_start := st.now }) st.reqs }
    match s.users with
    | none =>
      sched st.now (.granted rid t)
        { st1 with sys := modServer t (seizeUpd st.now rid) st1.sys }
    | some _ =>
      { st1 with sys := modServer t (enqueueUpd st.now rid) st1.sys }

/-- End of `request_process` (`simulation.py:93`): record the end-to-end
latency and count the completion. -/
def completeReq (rid : ℕ) (st : SimSt) : SimSt :=
  { st with sys := { st.sys with
      end_to_end_times := st.sys.end_to_end_times ++ [st.now - (getReq st.reqs rid).arrival_time]
      completed_requests := st.sys.completed_requests + 1 } }

/-- Resumption after `yield req` (`simulation.py:33` etc.): compute the
wait, draw the exponential service time, and schedule the service-done
timeout. -/
def handleGranted (rid : ℕ) (t : Tier) (st : SimSt) : SimSt :=
  match getServer st.sys t with
  | none => st
  | some s =>
    let wait := st.now - (getReq st.reqs rid).wait_start
    let svc := (npExponential (1 / s.service_rate) st.rng).1
    sched (st.now + svc) (.svcDone rid t)
      (waitSvcUpd t wait svc rid (npExponential (1 / s.service_rate) st.rng).2 st)

/-- The post-service bookkeeping of `simulation.py:40-44` (and the
analogous lines for the cache/db tiers): accumulate service time, record
the response time, count the departure and sample the queue length (the
sample is taken before the waiter, if any, leaves the queue). -/
def svcStatsUpd (info : ReqInfo) (now : ℚ) (sv : Server) : Server :=
  Server.record_queue_length { sv with
    total_service_time := sv.total_service_time + info.cur_service
    service_times := sv.service_times ++ [info.cur_service]
    response_times := sv.response_times ++ [info.cur_wait + info.cur_service]
    departures := sv.departures + 1 } now

/-- Post-service bookkeeping followed by releasing an uncontended slot. -/
def freeSlotUpd (info : ReqInfo) (now : ℚ) (sv : Server) : Server :=
  { svcStatsUpd info now sv with users := none }

/-- Post-service bookkeeping followed by handing the slot to the first
waiter `w`. -/
def passSlotUpd (info : ReqInfo) (now : ℚ) (w : ℕ) (ws : List ℕ) (sv : Server) : Server :=
  { svcStatsUpd info now sv with users := some w, waitq := ws }

/-- Continuation of the `request_process` body after the `with` block of
tier `t` exits (`simulation.py:46-96`): after an application tier, the
cache probe and the hop to the cache tier (hit) or the database tier
(miss or cache disabled); after the cache or database tier, completion. -/
def svcContinue (rid : ℕ) (t : Tier) (st2 : SimSt) : SimSt :=
  match t with
  | .app _ =>
    if st2.sys.cache_enabled then
      match st2.sys.cache with
      | some c =>
        let key := "req_" ++ toString (rid % 1000)
        let out := c.access key st2.rng
        let st3 := setCacheRng out.2.1 out.2.2 st2
        if out.1 then arriveAcquire .cacheT rid st3 else arriveAcquire .db rid st3
      | none => arriveAcquire .db rid st2
    else arriveAcquire .db rid st2
  | .cacheT => completeReq rid st2
  | .db => completeReq rid st2

/-- Post-service bookkeeping and release of the capacity-1 resource of
tier `t` held by the finishing request: if the FIFO queue is nonempty,
its head becomes the new holder and its `granted` resumption is
scheduled at the current time. -/
def svcStage (rid : ℕ) (t : Tier) (s : Server) (stP : SimSt) : SimSt :=
  match s.waitq with
  | [] => { stP with sys := modServer t (freeSlotUpd (getReq stP.reqs rid) stP.now) stP.sys }
  | w :: ws =>
    sched stP.now (.granted w t)
      { stP with sys := modServer t (passSlotUpd (getReq stP.reqs rid) stP.now w ws) stP.sys }

/-- Resumption after `yield env.timeout(service_time)`: post-service
bookkeeping, release of the capacity-1 resource (waking the next waiter),
then the continuation of the request body. -/
def handleSvcDone (rid : ℕ) (t : Tier) (st : SimSt) : SimSt :=
  svcContinue rid t
    (match getServer st.sys t with
     | none => st
     | some s => svcStage rid t s st)

/-- First step of `request_generator` (`simulation.py:112`): check the
horizon, draw the first inter-arrival time and schedule the wake-up. -/
def handleGenInit (cfg : SimConfig) (st : SimSt) : SimSt :=
  if st.now < cfg.simulation_time then
    let dt := (npExponential (1 / cfg.arrival_rate) st.rng).1
    sched (st.now + dt) .genWake (setRng (npExponential (1 / cfg.arrival_rate) st.rng).2 st)
  else st

/-- Wake-up of `request_generator` after its timeout
(`simulation.py:115`): if still below the horizon, admit the request
(count it, spawn its `request_process`), then loop — draw the next
inter-arrival time and reschedule.  (The admission `if` and the `while`
condition compare the same clock value, so one test guards both.) -/
def handleGenWake (cfg : SimConfig) (st : SimSt) : SimSt :=
  if st.now < cfg.simulation_time then
    let rid := st.next_request_id
    let dt := (npExponential (1 / cfg.arrival_rate) st.rng).1
    sched (st.now + dt) .genWake (sched st.now (.procInit rid)
      (admitReq rid st.now (npExponential (1 / cfg.arrival_rate) st.rng).2 st))
  else st

/-- Start of a `request_process` (`simulation.py:24`): dispatch through
the load balancer and arrive at the chosen application server.  `none`
models the uncaught exception when `select_server` fails (in particular
its unbounded recursion on an unknown strategy). -/
def handleProcInit (lbFuel : ℕ) (rid : ℕ) (st : SimSt) : Option SimSt :=
  match LoadBalancer.select_server lbFuel st.sys.load_balancer st.sys.app_servers st.rng with
  | none => none
  | some (idx, lb2, rng2) =>
    some (arriveAcquire (.app idx) rid (setLB lb2 rng2 st))

/-- Outcome of dispatching one event. -/
inductive StepRes where
  | halt (st : SimSt)
  | next (st : SimSt)
  | crash
deriving Repr

/-- One scheduler step of `env.run(until=simulation_time)`
(`simulation.py:163`): pop the earliest event; events at or beyond the
horizon are never dispatched — the run stops there with the clock set to
the horizon, exactly as SimPy's `until` timeout ends the run.  In-flight
continuations whose next event lies past the horizon are abandoned. -/
def stepSim (cfg : SimConfig) (lbFuel : ℕ) (st : SimSt) : StepRes :=
  match st.events with
  | [] => .halt { st with now := cfg.simulation_time }
  | e :: rest =>
    if e.time < cfg.simulation_time then
      let st1 : SimSt := { st with now := e.time, events := rest }
      match e.ev with
      | .genInit => .next (handleGenInit cfg st1)
      | .genWake => .next (handleGenWake cfg st1)
      | .procInit rid =>
        match handleProcInit lbFuel rid st1 with
        | some st2 => .next st2
        | none => .crash
      | .granted rid t => .next (handleGranted rid t st1)
      | .svcDone rid t => .next (handleSvcDone rid t st1)
    else .halt { st with now := cfg.simulation_time }

/-- Run at most `n` scheduler steps, stopping early at the horizon;
`none` models an uncaught exception. -/
def runSteps (cfg : SimConfig) (lbFuel : ℕ) : ℕ → SimSt → Option SimSt
  | 0, st => some st
  | n + 1, st =>
    match stepSim cfg lbFuel st with
    | .halt st2 => some st2
    | .next st2 => runSteps cfg lbFuel n st2
    | .crash => none

/-- Run the scheduler to the horizon; `none` if the fuel budget does not
reach it or an exception occurs. -/
def simLoop (cfg : SimConfig) (lbFuel : ℕ) : ℕ → SimSt → Option SimSt
  | 0, _ => none
  | n + 1, st =>
    match stepSim cfg lbFuel st with
    | .halt st2 => some st2
    | .next st2 => simLoop cfg lbFuel n st2
    | .crash => none

/-- Initial simulation state of `run_simulation`: fresh system, the
`request_generator` process scheduled at time 0. -/
def initState (cfg : SimConfig) (rng : Rng) : SimSt :=
  { now := 0
    seqn := 1
    events := [⟨0, 0, .genInit⟩]
    rng := rng
    sys := ThreeTierSystem.init cfg.app_service_rate cfg.db_service_rate cfg.cache_enabled
      cfg.cache_hit_rate cfg.cache_service_rate cfg.num_app_servers cfg.load_balancing_strategy
    reqs := []
    next_request_id := 0 }

/-! ## Metrics snapshot (`ThreeTierSystem.get_metrics`, `run_simulation`) -/

/-- The `load_balancer` section of the metrics dictionary. -/
structure LBMetrics where
  strategy : String
  total_requests : ℕ
  num_servers : ℕ
deriving DecidableEq, Repr

/-- The `system` section of the metrics dictionary. -/
structure SystemMetrics where
  total_requests : ℕ
  completed_requests : ℕ
  avg_end_to_end_time : ℚ
  system_throughput : ℚ
deriving DecidableEq, Repr

/-- The `parameters` echo appended by `run_simulation`
(`simulation.py:167`). -/
structure ParamsEcho where
  arrival_rate : ℚ
  app_service_rate : ℚ
  db_service_rate : ℚ
  cache_enabled : Bool
  cache_hit_rate : Option ℚ
  cache_service_rate : Option ℚ
  num_app_servers : ℕ
  load_balancing_strategy : String
  simulation_time : ℚ
  random_seed : Option ℕ
deriving DecidableEq, Repr

/-- The full metrics dictionary returned by `run_simulation`. -/
structure Metrics where
  app_server : ServerMetrics
  app_servers_individual : List (String × ServerMetrics)
  load_balancer : LBMetrics
  db_server : ServerMetrics
  system : SystemMetrics
  cache : Option CacheMetrics
  cache_server : Option ServerMetrics
  parameters : ParamsEcho
deriving DecidableEq, Repr

/-- `ThreeTierSystem.get_metrics` (`models.py:251`) evaluated at clock
value `now`, with the `parameters` echo of `run_simulation`. -/
def metricsOf (cfg : SimConfig) (random_seed : Option ℕ) (st : SimSt) : Metrics :=
  let sys := st.sys
  { app_server :=
      { utilization := listMean (sys.app_servers.map (fun s => s.get_utilization st.now))
        avg_queue_length := listMean (sys.app_servers.map (fun s => s.get_avg_queue_length st.now))
        avg_response_time := listMean (sys.app_servers.map Server.get_avg_response_time)
        throughput := listMean (sys.app_servers.map (fun s => s.get_throughput st.now))
        arrivals := (sys.app_servers.map Server.arrivals).sum
        departures := (sys.app_servers.map Server.departures).sum }
    app_servers_individual := sys.app_servers.map (fun s => (s.name, s.get_metrics st.now))
    load_balancer :=
      { strategy := sys.load_balancing_strategy
        total_requests := sys.load_balancer.total_requests
        num_servers := sys.num_app_servers }
    db_server := sys.db_server.get_metrics st.now
    system :=
      { total_requests := sys.total_requests
        completed_requests := sys.completed_requests
        avg_end_to_end_time :=
          if sys.end_to_end_times = [] then 0 else listMean sys.end_to_end_times
        system_throughput :=
          if 0 < st.now then (sys.completed_requests : ℚ) / st.now else 0 }
    cache := sys.cache.map Cache.get_metrics
    cache_server := sys.cache_server.map (fun s => s.get_metrics st.now)
    parameters :=
      { arrival_rate := cfg.arrival_rate
        app_service_rate := cfg.app_service_rate
        db_service_rate := cfg.db_service_rate
        cache_enabled := cfg.cache_enabled
        cache_hit_rate := if cfg.cache_enabled then some cfg.cache_hit_rate else none
        cache_service_rate := if cfg.cache_enabled then some cfg.cache_service_rate else none
        num_app_servers := cfg.num_app_servers
        load_balancing_strategy := cfg.load_balancing_strategy
        simulation_time := cfg.simulation_time
        random_seed := random_seed } }

/-- `run_simulation` (`simulation.py:125`).  `g` is the numpy global
random state at call time: it is replaced by the seeded stream when
`random_seed` is given and used as-is otherwise.  `fuel` bounds the
number of dispatched events and `lbFuel` the recursion depth of
`select_server`; `none` models a raised exception or an unfinished run. -/
def run_simulation (fuel lbFuel : ℕ) (cfg : SimConfig) (random_seed : Option ℕ)
    (g : Rng) : Option Metrics :=
  let rng0 := match random_seed with
    | some s => npSeed s
    | none => g
  (simLoop cfg lbFuel fuel (initState cfg rng0)).map (metricsOf cfg random_seed)

/-! ## Conservation invariants (claims C5, C3, C2)

`Server.connections` counts the requests currently waiting or in service
at a server, so `arrivals = departures + connections` is the per-server
conservation law; pending `procInit` events count requests admitted but
not yet dispatched.  The invariants below are preserved by every
scheduler step. -/

/-- The servers owned by the system, as a list. -/
def allServers (sys : ThreeTierSystem) : List Server :=
  sys.app_servers ++ sys.db_server ::
    (match sys.cache_server with
     | some c => [c]
     | none => [])

/-- Sum of a server statistic over all servers. -/
def servSum (g : Server → ℕ) (sys : ThreeTierSystem) : ℕ :=
  ((allServers sys).map g).sum

/-- Is an event the start of a spawned request process? -/
def isInitEv : Ev → Bool
  | .procInit _ => true
  | _ => false

/-- Number of admitted-but-not-yet-dispatched requests. -/
def initCount (st : SimSt) : ℕ := st.events.countP (fun e => isInitEv e.ev)

/-- Is an event a `granted` or `svcDone` resumption at tier `t`? -/
def isSlotEv (t : Tier) : Ev → Bool
  | .granted _ t2 => t2 = t
  | .svcDone _ t2 => t2 = t
  | _ => false

/-- The request id carried by a slot event. -/
def evHolder : Ev → ℕ
  | .granted r _ => r
  | .svcDone r _ => r
  | _ => 0

/-- Number of pending slot events of tier `t`. -/
def slotEvCount (st : SimSt) (t : Tier) : ℕ :=
  st.events.countP (fun e => isSlotEv t e.ev)

/-- Coherence of a tier's resource slot with the pending events: an
occupied slot has exactly one pending resumption, owned by the slot
holder; a free slot has none. -/
def slotInv (st : SimSt) (t : Tier) : Prop :=
  match getServer st.sys t with
  | none => slotEvCount st t = 0
  | some s =>
    match s.users with
    | none => slotEvCount st t = 0
    | some r => slotEvCount st t = 1 ∧
        ∀ e ∈ st.events, isSlotEv t e.ev = true → evHolder e.ev = r

/-- The simulation invariant: per-server conservation, global counting,
slot coherence, and presence of the cache server whenever caching is
enabled. -/
def SimInv (st : SimSt) : Prop :=
  (∀ t s, getServer st.sys t = some s → s.arrivals = s.departures + s.connections) ∧
  (st.sys.total_requests + servSum Server.departures st.sys =
    st.sys.completed_requests + initCount st + servSum Server.arrivals st.sys) ∧
  (∀ t, slotInv st t) ∧
  (st.sys.cache_enabled = true → st.sys.cache_server.isSome = true)

/-- The invariant of runs started under an unknown balancing strategy: no
slot event is ever pending, no server tier has ever been reached, nothing
has completed, and the balancer still carries the configured strategy
string. -/
def UInv (cfg : SimConfig) (st : SimSt) : Prop :=
  (∀ t, slotEvCount st t = 0) ∧
  servSum Server.arrivals st.sys = 0 ∧
  st.sys.completed_requests = 0 ∧
  st.sys.load_balancer.strategy = cfg.load_balancing_strategy

/-- `UInv` status of a scheduler step outcome. -/
def uStepOk (cfg : SimConfig) : StepRes → Prop
  | .next st2 => UInv cfg st2
  | .halt st2 => UInv cfg st2
  | .crash => True

/-- A concrete configuration for the runs below: one app server of
service rate 1/100 (mean service time 100, far beyond the horizon),
arrival rate 1, horizon 1, cache disabled, round-robin balancing. -/
def cfgRR : SimConfig := ⟨1, 1/100, 30, 1, false, 0, 300, 1, "round_robin"⟩

/-- The same configuration with a horizon of 0: the run returns at once,
before any request is admitted. -/
def cfgRR0 : SimConfig := ⟨1, 1/100, 30, 0, false, 0, 300, 1, "round_robin"⟩

/-- The configuration `cfgRR` with an unknown balancing strategy. -/
def cfgBogus : SimConfig := ⟨1, 1/100, 30, 1, false, 0, 300, 1, "bogus"⟩

/-- The configuration `cfgBogus` with a horizon of 0. -/
def cfgBogus0 : SimConfig := ⟨1, 1/100, 30, 0, false, 0, 300, 1, "bogus"⟩

/-! ### List-level helper lemmas -/

/-- `countP` over an ordered insertion. -/
theorem countP_insertEvt (p : Evt → Bool) (e : Evt) :
    ∀ l : List Evt, (insertEvt e l).countP p = l.countP p + (if p e then 1 else 0)
  | [] => by simp [insertEvt, List.countP_cons]
  | x :: xs => by
    unfold insertEvt
    split
    · simp only [List.countP_cons]
    · simp only [List.countP_cons, countP_insertEvt p e xs]
      omega

/-- Membership in an ordered insertion. -/
theorem mem_insertEvt (e a : Evt) :
    ∀ l : List Evt, a ∈ insertEvt e l ↔ a = e ∨ a ∈ l
  | [] => by simp [insertEvt]
  | x :: xs => by
    unfold insertEvt
    split
    · simp [or_comm, or_left_comm]
    · rw [List.mem_cons, mem_insertEvt e a xs, List.mem_cons]
      tauto

/-- `listModify` out of range is the identity. -/
theorem listModify_of_getElem?_none {f : α → α} :
    ∀ {l : List α} {i : ℕ}, l.get? i = none → listModify f i l = l
  | [], _, _ => by simp [listModify]
  | x :: xs, 0, h => by simp at h
  | x :: xs, i + 1, h => by
    simp only [List.get?_cons_succ] at h
    simp [listModify, listModify_of_getElem?_none h]

/-- `get?` after `listModify`. -/
theorem get?_listModify (f : α → α) :
    ∀ (l : List α) (i j : ℕ),
      (listModify f i l).get? j = if j = i then (l.get? i).map f else l.get? j
  | [], i, j => by simp [listModify]
  | x :: xs, 0, 0 => by simp [listModify]
  | x :: xs, 0, j + 1 => by simp [listModify]
  | x :: xs, i + 1, 0 => by simp [listModify, Nat.succ_ne_zero]
  | x :: xs, i + 1, j + 1 => by
    simp only [listModify, List.get?_cons_succ]
    rw [get?_listModify f xs i j]
    by_cases h : j = i <;> simp [h]

/-- Summing a statistic after modifying one list position. -/
theorem sum_map_listModify (g : α → ℕ) (f : α → α) :
    ∀ (l : List α) (i : ℕ) (a : α), l.get? i = some a →
      ((listModify f i l).map g).sum + g a = (l.map g).sum + g (f a)
  | [], i, a, h => by simp at h
  | x :: xs, 0, a, h => by
    simp only [List.get?_cons_zero, Option.some.injEq] at h
    subst h
    simp [listModify]
    omega
  | x :: xs, i + 1, a, h => by
    simp only [List.get?_cons_succ] at h
    have := sum_map_listModify g f xs i a h
    simp only [listModify, List.map_cons, List.sum_cons]
    omega

/-! ### Effect lemmas for the state-updating primitives -/

/-- `modServer` touches only the addressed tier. -/
theorem getServer_modServer (t t' : Tier) (f : Server → Server) (sys : ThreeTierSystem) :
    getServer (modServer t f sys) t' =
      if t' = t then (getServer sys t).map f else getServer sys t' := by
  cases t <;> cases t' <;>
    simp only [getServer, modServer, get?_listModify, Tier.app.injEq] <;> simp

/-- `modServer` never changes the non-server fields. -/
theorem modServer_proj (t : Tier) (f : Server → Server) (sys : ThreeTierSystem) :
    (modServer t f sys).total_requests = sys.total_requests ∧
    (modServer t f sys).completed_requests = sys.completed_requests ∧
    (modServer t f sys).load_balancer = sys.load_balancer ∧
    (modServer t f sys).cache_enabled = sys.cache_enabled ∧
    (modServer t f sys).cache = sys.cache := by
  cases t <;> simp [modServer]

/-- `modServer` at a missing tier is the identity. -/
theorem modServer_of_none {t : Tier} {sys : ThreeTierSystem} (f : Server → Server)
    (h : getServer sys t = none) : modServer t f sys = sys := by
  cases t with
  | app i =>
    simp only [getServer] at h
    simp [modServer, listModify_of_getElem?_none h]
  | cacheT =>
    simp only [getServer] at h
    cases sys
    simp_all [modServer]
  | db => simp [getServer] at h

/-- Summing a statistic after `modServer` at an existing tier. -/
theorem servSum_modServer (g : Server → ℕ) (t : Tier) (f : Server → Server)
    (sys : ThreeTierSystem) (a : Server) (h : getServer sys t = some a) :
    servSum g (modServer t f sys) + g a = servSum g sys + g (f a) := by
  cases t with
  | app i =>
    simp only [getServer] at h
    have := sum_map_listModify g f sys.app_servers i a h
    simp only [servSum, allServers, modServer, List.map_append, List.sum_append]
    simp only [List.map_cons, List.sum_cons]
    omega
  | cacheT =>
    simp only [getServer] at h
    simp only [servSum, allServers, modServer, h, Option.map, List.map_append,
      List.sum_append, List.map_cons, List.sum_cons, List.map_nil, List.sum_nil]
    omega
  | db =>
    simp only [getServer, Option.some.injEq] at h
    subst h
    simp only [servSum, allServers, modServer, List.map_append, List.sum_append,
      List.map_cons, List.sum_cons]
    omega

/-- `sched` leaves the system untouched. -/
theorem sched_sys (t : ℚ) (ev : Ev) (st : SimSt) : (sched t ev st).sys = st.sys := rfl

/-- Pending-event counts after `sched`. -/
theorem countP_sched (p : Evt → Bool) (t : ℚ) (ev : Ev) (st : SimSt) :
    (sched t ev st).events.countP p =
      st.events.countP p + (if p ⟨t, st.seqn, ev⟩ then 1 else 0) := by
  simp [sched, countP_insertEvt]

/-- Membership in the event set after `sched`. -/
theorem mem_sched (a : Evt) (t : ℚ) (ev : Ev) (st : SimSt) :
    a ∈ (sched t ev st).events ↔ a = ⟨t, st.seqn, ev⟩ ∨ a ∈ st.events := by
  simp [sched, mem_insertEvt]

/-- A successful `select_server` returns an index into the server list. -/
theorem select_server_idx_lt :
    ∀ (fuel : ℕ) (lb : LoadBalancer) (servers : List Server) (rng : Rng)
      (i : ℕ) (lb2 : LoadBalancer) (rng2 : Rng),
      LoadBalancer.select_server fuel lb servers rng = some (i, lb2, rng2) →
      i < servers.length
  | 0, lb, servers, rng, i, lb2, rng2, h => by simp [LoadBalancer.select_server] at h
  | fuel + 1, lb, servers, rng, i, lb2, rng2, h => by
    simp only [LoadBalancer.select_server] at h
    split at h
    · split at h
      · exact absurd h (by simp)
      · rename_i heq
        simp only [Option.some.injEq, Prod.mk.injEq] at h
        obtain ⟨rfl, -⟩ := h
        obtain ⟨hlt, -⟩ := List.get?_eq_some.mp heq
        exact hlt
    · split at h
      · split at h
        · exact absurd h (by simp)
        · rename_i s0 rest
          simp only [Option.some.injEq, Prod.mk.injEq] at h
          obtain ⟨rfl, -⟩ := h
          have hlen : 0 < (s0 :: rest).length := by simp
          calc chooseIndex (npRandom rng).1 (s0 :: rest).length
              ≤ (s0 :: rest).length - 1 := min_le_right _ _
            _ < (s0 :: rest).length := by omega
      · split at h
        · split at h
          · exact absurd h (by simp)
          · rename_i sHead sTail
            split at h
            · exact absurd h (by simp)
            · rename_i i1 heq
              simp only [Option.some.injEq, Prod.mk.injEq] at h
              obtain ⟨rfl, -⟩ := h
              have hm : i1 ∈ lcCands (sHead :: sTail) (minConnections sHead sTail) := by
                rw [heq]
                exact List.mem_singleton_self i1
              have := List.mem_range.mp (List.mem_filter.mp hm).1
              simpa using this
            · rename_i i1 i2 tl heq
              simp only [Option.some.injEq, Prod.mk.injEq] at h
              obtain ⟨rfl, -⟩ := h
              have hmem : (lcCands (sHead :: sTail) (minConnections sHead sTail)).getD
                  (chooseIndex (npRandom rng).1
                    (lcCands (sHead :: sTail) (minConnections sHead sTail)).length) i1 ∈
                  lcCands (sHead :: sTail) (minConnections sHead sTail) :=
                getD_mem_of_mem _ (heq ▸ List.mem_cons_self i1 _)
              have := List.mem_range.mp (List.mem_filter.mp hmem).1
              simpa using this
        · exact select_server_idx_lt fuel _ servers rng i lb2 rng2 h

/-! ### Observable effects of the server-update functions -/

/-- Projections of the seize update. -/
theorem seizeUpd_proj (now : ℚ) (rid : ℕ) (sv : Server) :
    (seizeUpd now rid sv).arrivals = sv.arrivals + 1 ∧
    (seizeUpd now rid sv).departures = sv.departures ∧
    (seizeUpd now rid sv).users = some rid ∧
    (seizeUpd now rid sv).waitq = sv.waitq := by
  simp [seizeUpd, arrRecUpd, Server.record_queue_length]

/-- Projections of the enqueue update. -/
theorem enqueueUpd_proj (now : ℚ) (rid : ℕ) (sv : Server) :
    (enqueueUpd now rid sv).arrivals = sv.arrivals + 1 ∧
    (enqueueUpd now rid sv).departures = sv.departures ∧
    (enqueueUpd now rid sv).users = sv.users ∧
    (enqueueUpd now rid sv).waitq = sv.waitq ++ [rid] := by
  simp [enqueueUpd, arrRecUpd, Server.record_queue_length]

/-- Projections of the free-slot update. -/
theorem freeSlotUpd_proj (info : ReqInfo) (now : ℚ) (sv : Server) :
    (freeSlotUpd info now sv).arrivals = sv.arrivals ∧
    (freeSlotUpd info now sv).departures = sv.departures + 1 ∧
    (freeSlotUpd info now sv).users = none ∧
    (freeSlotUpd info now sv).waitq = sv.waitq := by
  simp [freeSlotUpd, svcStatsUpd, Server.record_queue_length]

/-- Projections of the pass-slot update. -/
theorem passSlotUpd_proj (info : ReqInfo) (now : ℚ) (w : ℕ) (ws : List ℕ) (sv : Server) :
    (passSlotUpd info now w ws sv).arrivals = sv.arrivals ∧
    (passSlotUpd info now w ws sv).departures = sv.departures + 1 ∧
    (passSlotUpd info now w ws sv).users = some w ∧
    (passSlotUpd info now w ws sv).waitq = ws := by
  simp [passSlotUpd, svcStatsUpd, Server.record_queue_length]

/-- `modServer` keeps a present cache server present. -/
theorem modServer_cache_isSome (t : Tier) (f : Server → Server) (sys : ThreeTierSystem) :
    (modServer t f sys).cache_server.isSome = sys.cache_server.isSome := by
  cases t with
  | app i => simp [modServer]
  | cacheT => cases hcs : sys.cache_server <;> simp [modServer, hcs]
  | db => simp [modServer]

/-- Slot coherence transfer when the slot state of tier `t` is rewritten
by `modServer` but its user field is unchanged and no slot event is added
or removed. -/
theorem slotInv_modServer_same_users (st : SimSt) (t : Tier) (f : Server → Server)
    (husers : ∀ sv, (f sv).users = sv.users)
    (hslot : ∀ t', slotInv st t') :
    ∀ t', slotInv { st with sys := modServer t f st.sys } t' := by
  intro t'
  have hold := hslot t'
  unfold slotInv at hold ⊢
  rw [show ({ st with sys := modServer t f st.sys } : SimSt).sys = modServer t f st.sys from rfl]
  rw [getServer_modServer]
  by_cases h : t' = t
  · rw [if_pos h, h]
    cases hv : getServer st.sys t with
    | none =>
      simp only [h, hv] at hold
      simpa [slotEvCount] using hold
    | some s =>
      simp only [h, hv] at hold
      simp only [Option.map_some', husers s]
      cases hu : s.users with
      | none =>
        simp only [hu] at hold
        simpa [slotEvCount] using hold
      | some r =>
        simp only [hu] at hold
        simpa [slotEvCount] using hold
  · rw [if_neg h]
    exact hold

/-- Invariant transfer across `arriveAcquire` at an existing tier: the
arrival count rises by one, matching the rise in waiting-plus-in-service
occupancy; slot coherence is maintained. -/
theorem arriveAcquire_inv (t : Tier) (rid : ℕ) (st : SimSt) (s : Server)
    (hv : getServer st.sys t = some s)
    (hJ1 : ∀ t' s', getServer st.sys t' = some s' →
      s'.arrivals = s'.departures + s'.connections)
    (hslot : ∀ t', slotInv st t') :
    (∀ t' s', getServer (arriveAcquire t rid st).sys t' = some s' →
      s'.arrivals = s'.departures + s'.connections) ∧
    (∀ t', slotInv (arriveAcquire t rid st) t') ∧
    servSum Server.arrivals (arriveAcquire t rid st).sys = servSum Server.arrivals st.sys + 1 ∧
    servSum Server.departures (arriveAcquire t rid st).sys = servSum Server.departures st.sys ∧
    initCount (arriveAcquire t rid st) = initCount st ∧
    (arriveAcquire t rid st).sys.cache_server.isSome = st.sys.cache_server.isSome ∧
    (arriveAcquire t rid st).sys.total_requests = st.sys.total_requests ∧
    (arriveAcquire t rid st).sys.completed_requests = st.sys.completed_requests ∧
    (arriveAcquire t rid st).sys.cache_enabled = st.sys.cache_enabled ∧
    (arriveAcquire t rid st).sys.cache = st.sys.cache := by
  have hs1 := hJ1 t s hv
  unfold arriveAcquire
  simp only [hv]
  cases hu : s.users with
  | none =>
    simp only [hu]
    have hget : ∀ t', getServer (modServer t (seizeUpd st.now rid) st.sys) t' =
        if t' = t then some (seizeUpd st.now rid s) else getServer st.sys t' := by
      intro t'
      rw [getServer_modServer]
      by_cases h : t' = t <;> simp [h, hv]
    obtain ⟨hga, hgd, hgu, hgw⟩ := seizeUpd_proj st.now rid s
    have hgc : (seizeUpd st.now rid s).connections = s.connections + 1 := by
      simp [Server.connections, hgu, hgw, hu]
    refine ⟨?_, ?_, ?_, ?_, ?_, ?_,
      by rw [sched_sys]; exact (modServer_proj t _ st.sys).1,
      by rw [sched_sys]; exact (modServer_proj t _ st.sys).2.1,
      by rw [sched_sys]; exact (modServer_proj t _ st.sys).2.2.2.1,
      by rw [sched_sys]; exact (modServer_proj t _ st.sys).2.2.2.2⟩
    · intro t' s' h'
      rw [sched_sys] at h'
      rw [hget t'] at h'
      by_cases h : t' = t
      · rw [if_pos h] at h'
        have : s' = seizeUpd st.now rid s := by simpa using h'.symm
        subst this
        rw [hga, hgd, hgc]
        omega
      · rw [if_neg h] at h'
        exact hJ1 t' s' h'
    · intro t'
      have hold := hslot t'
      unfold slotInv at hold ⊢
      rw [sched_sys, hget]
      by_cases h : t' = t
      · subst h
        rw [if_pos rfl]
        simp only [hgu]
        simp only [hv, hu] at hold
        constructor
        · rw [slotEvCount, countP_sched]
          rw [slotEvCount] at hold
          rw [hold]
          simp [isSlotEv]
        · intro e he hslote
          rcases (mem_sched e _ _ _).mp he with rfl | hmem
          · rfl
          · exact absurd hslote (by
              have := List.countP_eq_zero.mp hold e hmem
              simpa using this)
      · rw [if_neg h]
        cases hv' : getServer st.sys t' with
        | none =>
          simp only [hv'] at hold
          simp only [hv']
          rw [slotEvCount, countP_sched]
          rw [slotEvCount] at hold
          rw [hold]
          simp [isSlotEv, Ne.symm h]
        | some s' =>
          simp only [hv'] at hold
          simp only [hv']
          cases hu' : s'.users with
          | none =>
            simp only [hu'] at hold
            simp only [hu']
            rw [slotEvCount, countP_sched]
            rw [slotEvCount] at hold
            rw [hold]
            simp [isSlotEv, Ne.symm h]
          | some r' =>
            simp only [hu'] at hold
            simp only [hu']
            obtain ⟨hcnt, hhold⟩ := hold
            constructor
            · rw [slotEvCount, countP_sched]
              rw [slotEvCount] at hcnt
              rw [hcnt]
              simp [isSlotEv, Ne.symm h]
            · intro e he hslote
              rcases (mem_sched e _ _ _).mp he with rfl | hmem
              · simp only [isSlotEv] at hslote
                exact absurd hslote (by simp [Ne.symm h])
              · exact hhold e hmem hslote
    · show servSum Server.arrivals (modServer t (seizeUpd st.now rid) st.sys) =
        servSum Server.arrivals st.sys + 1
      have := servSum_modServer Server.arrivals t (seizeUpd st.now rid) st.sys s hv
      rw [hga] at this
      omega
    · show servSum Server.departures (modServer t (seizeUpd st.now rid) st.sys) =
        servSum Server.departures st.sys
      have := servSum_modServer Server.departures t (seizeUpd st.now rid) st.sys s hv
      rw [hgd] at this
      omega
    · rw [initCount, countP_sched]
      simp [isInitEv, initCount]
    · rw [sched_sys, modServer_cache_isSome]
  | some r0 =>
    simp only [hu]
    have hget : ∀ t', getServer (modServer t (enqueueUpd st.now rid) st.sys) t' =
        if t' = t then some (enqueueUpd st.now rid s) else getServer st.sys t' := by
      intro t'
      rw [getServer_modServer]
      by_cases h : t' = t <;> simp [h, hv]
    obtain ⟨hga, hgd, hgu, hgw⟩ := enqueueUpd_proj st.now rid s
    have hgc : (enqueueUpd st.now rid s).connections = s.connections + 1 := by
      simp [Server.connections, hgu, hgw]
      omega
    refine ⟨?_, ?_, ?_, ?_, rfl, ?_,
      (modServer_proj t _ st.sys).1,
      (modServer_proj t _ st.sys).2.1,
      (modServer_proj t _ st.sys).2.2.2.1,
      (modServer_proj t _ st.sys).2.2.2.2⟩
    · intro t' s' h'
      rw [hget t'] at h'
      by_cases h : t' = t
      · rw [if_pos h] at h'
        have : s' = enqueueUpd st.now rid s := by simpa using h'.symm
        subst this
        rw [hga, hgd, hgc]
        omega
      · rw [if_neg h] at h'
        exact hJ1 t' s' h'
    · have := slotInv_modServer_same_users st t (enqueueUpd st.now rid)
        (fun sv => (enqueueUpd_proj st.now rid sv).2.2.1) hslot
      intro t'
      exact this t'
    · show servSum Server.arrivals (modServer t (enqueueUpd st.now rid) st.sys) =
        servSum Server.arrivals st.sys + 1
      have := servSum_modServer Server.arrivals t (enqueueUpd st.now rid) st.sys s hv
      rw [hga] at this
      omega
    · show servSum Server.departures (modServer t (enqueueUpd st.now rid) st.sys) =
        servSum Server.departures st.sys
      have := servSum_modServer Server.departures t (enqueueUpd st.now rid) st.sys s hv
      rw [hgd] at this
      omega
    · rw [modServer_cache_isSome]

/-- Generic slot-coherence transfer: if the servers are unchanged, the
per-tier slot-event counts are unchanged, and every pending slot event
was already pending, coherence carries over. -/
theorem slotInv_transfer (st st' : SimSt)
    (hsys : ∀ t, getServer st'.sys t = getServer st.sys t)
    (hcnt : ∀ t, slotEvCount st' t = slotEvCount st t)
    (hmem : ∀ t e, e ∈ st'.events → isSlotEv t e.ev = true → e ∈ st.events)
    (h : ∀ t, slotInv st t) : ∀ t, slotInv st' t := by
  intro t
  have hold := h t
  unfold slotInv at hold ⊢
  rw [hsys]
  cases hv : getServer st.sys t with
  | none =>
    simp only [hv] at hold
    rw [hcnt]
    exact hold
  | some s =>
    simp only [hv] at hold
    simp only [hv]
    cases hu : s.users with
    | none =>
      simp only [hu] at hold
      simp only [hu]
      rw [hcnt]
      exact hold
    | some r =>
      simp only [hu] at hold
      simp only [hu]
      exact ⟨by rw [hcnt]; exact hold.1,
        fun e he hse => hold.2 e (hmem t e he hse) hse⟩

/-- `initCount` after `sched`, in folded form. -/
theorem initCount_sched (t : ℚ) (ev : Ev) (st : SimSt) :
    initCount (sched t ev st) = initCount st + (if isInitEv ev then 1 else 0) := by
  simp [initCount, countP_sched]

/-- `slotEvCount` after `sched`, in folded form. -/
theorem slotEvCount_sched (t' : Tier) (t : ℚ) (ev : Ev) (st : SimSt) :
    slotEvCount (sched t ev st) t' = slotEvCount st t' + (if isSlotEv t' ev then 1 else 0) := by
  simp [slotEvCount, countP_sched]

/-- Counts after popping the head event and advancing the clock. -/
theorem counts_pop (st : SimSt) (e : Evt) (rest : List Evt) (tm : ℚ)
    (hev : st.events = e :: rest) :
    initCount st = initCount { st with now := tm, events := rest } +
      (if isInitEv e.ev then 1 else 0) ∧
    ∀ t, slotEvCount st t = slotEvCount { st with now := tm, events := rest } t +
      (if isSlotEv t e.ev then 1 else 0) := by
  constructor
  · rw [initCount, initCount, hev, List.countP_cons]
  · intro t
    rw [slotEvCount, slotEvCount, hev, List.countP_cons]

/-- Preservation of the invariant when the generator's first event is
dispatched: only a `genWake` timeout may be scheduled. -/
theorem inv_genInit (cfg : SimConfig) (st : SimSt) (e : Evt) (rest : List Evt)
    (hev : st.events = e :: rest) (heI : isInitEv e.ev = false)
    (heS : ∀ t, isSlotEv t e.ev = false)
    (hInv : SimInv st) : SimInv (handleGenInit cfg { st with now := e.time, events := rest }) := by
  obtain ⟨hJ1, hJ2, hslot, hcache⟩ := hInv
  obtain ⟨hpopI, hpopS⟩ := counts_pop st e rest e.time hev
  simp only [heI, Bool.false_eq_true, if_false, add_zero] at hpopI
  set st1 : SimSt := { st with now := e.time, events := rest } with hst1
  have hpopS2 : ∀ t, slotEvCount st t = slotEvCount st1 t := by
    intro t
    have := hpopS t
    simpa [heS t] using this
  unfold handleGenInit
  split
  · refine ⟨hJ1, ?_, ?_, hcache⟩
    · rw [initCount_sched]
      have hr : initCount (setRng (npExponential (1 / cfg.arrival_rate) st1.rng).2 st1) =
          initCount st1 := rfl
      rw [hr, ← hpopI]
      simpa [isInitEv] using hJ2
    · apply slotInv_transfer st
      · intro t; rfl
      · intro t
        rw [slotEvCount_sched]
        have hr : slotEvCount (setRng (npExponential (1 / cfg.arrival_rate) st1.rng).2 st1) t =
            slotEvCount st1 t := rfl
        rw [hr, ← hpopS2 t]
        simp [isSlotEv]
      · intro t ev2 hmem hse
        rcases (mem_sched ev2 _ _ _).mp hmem with rfl | hmem2
        · simp [isSlotEv] at hse
        · rw [hev]
          exact List.mem_cons_of_mem e hmem2
      · exact hslot
  · refine ⟨hJ1, ?_, ?_, hcache⟩
    · rw [← hpopI]
      exact hJ2
    · apply slotInv_transfer st
      · intro t; rfl
      · intro t
        exact (hpopS2 t).symm
      · intro t ev2 hmem hse
        rw [hev]
        exact List.mem_cons_of_mem e hmem
      · exact hslot

/-- Preservation of the invariant when a generator wake-up is
dispatched: one request is admitted (`total_requests` rises by one) and
one `procInit` event is scheduled for it. -/
theorem inv_genWake (cfg : SimConfig) (st : SimSt) (e : Evt) (rest : List Evt)
    (hev : st.events = e :: rest) (heI : isInitEv e.ev = false)
    (heS : ∀ t, isSlotEv t e.ev = false)
    (hInv : SimInv st) : SimInv (handleGenWake cfg { st with now := e.time, events := rest }) := by
  obtain ⟨hJ1, hJ2, hslot, hcache⟩ := hInv
  obtain ⟨hpopI, hpopS⟩ := counts_pop st e rest e.time hev
  simp only [heI, Bool.false_eq_true, if_false, add_zero] at hpopI
  set st1 : SimSt := { st with now := e.time, events := rest } with hst1
  have hpopS2 : ∀ t, slotEvCount st t = slotEvCount st1 t := by
    intro t
    have := hpopS t
    simpa [heS t] using this
  have hradm : ∀ (rid : ℕ) (tm : ℚ) (r : Rng),
      initCount (admitReq rid tm r st1) = initCount st1 := fun _ _ _ => rfl
  have hradmS : ∀ (rid : ℕ) (tm : ℚ) (r : Rng) (t : Tier),
      slotEvCount (admitReq rid tm r st1) t = slotEvCount st1 t := fun _ _ _ _ => rfl
  unfold handleGenWake
  split
  · refine ⟨hJ1, ?_, ?_, hcache⟩
    · show (admitReq st1.next_request_id st1.now
          (npExponential (1 / cfg.arrival_rate) st1.rng).2 st1).sys.total_requests +
        servSum Server.departures st.sys = st.sys.completed_requests + _ +
        servSum Server.arrivals st.sys
      rw [initCount_sched, initCount_sched, hradm, ← hpopI]
      have htot : (admitReq st1.next_request_id st1.now
          (npExponential (1 / cfg.arrival_rate) st1.rng).2 st1).sys.total_requests =
          st.sys.total_requests + 1 := rfl
      rw [htot]
      simp only [isInitEv, Bool.false_eq_true, if_true, if_false]
      omega
    · apply slotInv_transfer st
      · intro t; rfl
      · intro t
        rw [slotEvCount_sched, slotEvCount_sched, hradmS, ← hpopS2 t]
        simp [isSlotEv]
      · intro t ev2 hmem hse
        rcases (mem_sched ev2 _ _ _).mp hmem with rfl | hmem2
        · simp [isSlotEv] at hse
        · rcases (mem_sched ev2 _ _ _).mp hmem2 with rfl | hmem3
          · simp [isSlotEv] at hse
          · rw [hev]
            exact List.mem_cons_of_mem e hmem3
      · exact hslot
  · refine ⟨hJ1, ?_, ?_, hcache⟩
    · rw [← hpopI]
      exact hJ2
    · apply slotInv_transfer st
      · intro t; rfl
      · intro t
        exact (hpopS2 t).symm
      · intro t ev2 hmem hse
        rw [hev]
        exact List.mem_cons_of_mem e hmem
      · exact hslot

/-- Preservation of the invariant when a request process starts: the
pending `procInit` is consumed and the request arrives at the selected
application server. -/
theorem inv_procInit (lbFuel : ℕ) (st : SimSt) (e : Evt) (rest : List Evt) (rid : ℕ)
    (stN : SimSt) (hev : st.events = e :: rest) (he : e.ev = .procInit rid)
    (hInv : SimInv st)
    (hp : handleProcInit lbFuel rid { st with now := e.time, events := rest } = some stN) :
    SimInv stN := by
  obtain ⟨hJ1, hJ2, hslot, hcache⟩ := hInv
  obtain ⟨hpopI, hpopS⟩ := counts_pop st e rest e.time hev
  rw [he] at hpopI hpopS
  simp only [isInitEv, if_true] at hpopI
  set st1 : SimSt := { st with now := e.time, events := rest } with hst1
  have hpopS2 : ∀ t, slotEvCount st t = slotEvCount st1 t := by
    intro t
    have := hpopS t
    simpa [isSlotEv] using this
  unfold handleProcInit at hp
  cases hsel : LoadBalancer.select_server lbFuel st1.sys.load_balancer st1.sys.app_servers
      st1.rng with
  | none => rw [hsel] at hp; exact absurd hp (by simp)
  | some triple =>
    obtain ⟨idx, lb2, rng2⟩ := triple
    rw [hsel] at hp
    simp only [Option.some.injEq] at hp
    subst hp
    have hlt : idx < st1.sys.app_servers.length :=
      select_server_idx_lt lbFuel _ _ _ idx lb2 rng2 hsel
    have hgs : ∀ t, getServer (setLB lb2 rng2 st1).sys t = getServer st.sys t := by
      intro t; cases t <;> rfl
    have hv : ∃ s, getServer (setLB lb2 rng2 st1).sys (.app idx) = some s := by
      rw [hgs]
      show ∃ s, st.sys.app_servers.get? idx = some s
      exact ⟨_, List.get?_eq_get hlt⟩
    obtain ⟨s, hv⟩ := hv
    have hJ1L : ∀ t' s', getServer (setLB lb2 rng2 st1).sys t' = some s' →
        s'.arrivals = s'.departures + s'.connections := by
      intro t' s' h'
      rw [hgs] at h'
      exact hJ1 t' s' h'
    have hslotL : ∀ t', slotInv (setLB lb2 rng2 st1) t' := by
      apply slotInv_transfer st
      · exact hgs
      · intro t
        exact (hpopS2 t).symm
      · intro t ev2 hmem hse
        rw [hev]
        exact List.mem_cons_of_mem e hmem
      · exact hslot
    obtain ⟨aJ1, aSlot, aArr, aDep, aInit, aCa, aTot, aComp, aEn, -⟩ :=
      arriveAcquire_inv (.app idx) rid (setLB lb2 rng2 st1) s hv hJ1L hslotL
    refine ⟨aJ1, ?_, aSlot, ?_⟩
    · have h1 : (setLB lb2 rng2 st1).sys.total_requests = st.sys.total_requests := rfl
      have h2 : servSum Server.departures (setLB lb2 rng2 st1).sys =
          servSum Server.departures st.sys := rfl
      have h3 : servSum Server.arrivals (setLB lb2 rng2 st1).sys =
          servSum Server.arrivals st.sys := rfl
      have h4 : (setLB lb2 rng2 st1).sys.completed_requests =
          st.sys.completed_requests := rfl
      have h5 : initCount (setLB lb2 rng2 st1) = initCount st1 := rfl
      rw [aTot, aDep, aComp, aInit, aArr, h1, h2, h3, h4, h5]
      omega
    · intro hen
      rw [aEn] at hen
      have hen2 : st.sys.cache_enabled = true := hen
      rw [aCa]
      have h6 : (setLB lb2 rng2 st1).sys.cache_server.isSome =
          st.sys.cache_server.isSome := rfl
      rw [h6]
      exact hcache hen2

/-- Preservation of the invariant when a `granted` resumption is
dispatched: the pending `granted` of the slot holder is replaced by the
`svcDone` timeout of the same holder. -/
theorem inv_granted (st : SimSt) (e : Evt) (rest : List Evt) (rid : ℕ) (t : Tier)
    (hev : st.events = e :: rest) (he : e.ev = .granted rid t)
    (hInv : SimInv st) :
    SimInv (handleGranted rid t { st with now := e.time, events := rest }) := by
  obtain ⟨hJ1, hJ2, hslot, hcache⟩ := hInv
  obtain ⟨hpopI, hpopS⟩ := counts_pop st e rest e.time hev
  rw [he] at hpopI hpopS
  simp only [isInitEv, Bool.false_eq_true, if_false, add_zero] at hpopI
  set st1 : SimSt := { st with now := e.time, events := rest } with hst1
  have hpopSt : slotEvCount st t = slotEvCount st1 t + 1 := by
    have := hpopS t
    simpa [isSlotEv] using this
  have hpopSne : ∀ t', t' ≠ t → slotEvCount st t' = slotEvCount st1 t' := by
    intro t' hne
    have := hpopS t'
    simpa [isSlotEv, Ne.symm hne] using this
  unfold handleGranted
  cases hv : getServer st1.sys t with
  | none =>
    exfalso
    have hst : getServer st.sys t = none := hv
    have h0 := hslot t
    unfold slotInv at h0
    simp only [hst] at h0
    omega
  | some s =>
    have hst : getServer st.sys t = some s := hv
    have h0 := hslot t
    unfold slotInv at h0
    simp only [hst] at h0
    cases hu : s.users with
    | none =>
      exfalso
      simp only [hu] at h0
      omega
    | some r =>
      simp only [hu] at h0
      obtain ⟨hcnt1, hhold⟩ := h0
      have hrid : rid = r := by
        have hmem : e ∈ st.events := by rw [hev]; exact List.mem_cons_self e rest
        have := hhold e hmem (by rw [he]; simp [isSlotEv])
        rw [he] at this
        simpa [evHolder] using this
      subst hrid
      simp only [hv]
      have hcnt0 : slotEvCount st1 t = 0 := by omega
      -- the updated server keeps all slot observables
      have hfp : ∀ sv : Server,
          (({ sv with total_wait_time := sv.total_wait_time +
              (st1.now - (getReq st1.reqs rid).wait_start) }) : Server).users = sv.users :=
        fun sv => rfl
      refine ⟨?_, ?_, ?_, ?_⟩
      · intro t' s' h'
        rw [sched_sys] at h'
        have hw : (waitSvcUpd t (st1.now - (getReq st1.reqs rid).wait_start)
            (npExponential (1 / s.service_rate) st1.rng).1 rid
            (npExponential (1 / s.service_rate) st1.rng).2 st1).sys =
            modServer t (fun sv => { sv with total_wait_time := sv.total_wait_time +
              (st1.now - (getReq st1.reqs rid).wait_start) }) st.sys := rfl
        rw [hw, getServer_modServer] at h'
        by_cases hne : t' = t
        · rw [if_pos hne, hst] at h'
          simp only [Option.map_some', Option.some.injEq] at h'
          subst h'
          have := hJ1 t s hst
          simpa [Server.connections] using this
        · rw [if_neg hne] at h'
          exact hJ1 t' s' h'
      · rw [initCount_sched]
        have hr : initCount (waitSvcUpd t (st1.now - (getReq st1.reqs rid).wait_start)
            (npExponential (1 / s.service_rate) st1.rng).1 rid
            (npExponential (1 / s.service_rate) st1.rng).2 st1) = initCount st1 := rfl
        rw [hr, ← hpopI]
        have hsd : (sched ((st1 : SimSt).now + (npExponential (1 / s.service_rate) st1.rng).1)
            (Ev.svcDone rid t) (waitSvcUpd t (st1.now - (getReq st1.reqs rid).wait_start)
            (npExponential (1 / s.service_rate) st1.rng).1 rid
            (npExponential (1 / s.service_rate) st1.rng).2 st1)).sys =
            modServer t (fun sv => { sv with total_wait_time := sv.total_wait_time +
              (st1.now - (getReq st1.reqs rid).wait_start) }) st.sys := rfl
        rw [hsd]
        have hda := servSum_modServer Server.departures t
          (fun sv => { sv with total_wait_time := sv.total_wait_time +
            (st1.now - (getReq st1.reqs rid).wait_start) }) st.sys s hst
        have haa := servSum_modServer Server.arrivals t
          (fun sv => { sv with total_wait_time := sv.total_wait_time +
            (st1.now - (getReq st1.reqs rid).wait_start) }) st.sys s hst
        dsimp only at hda haa
        simp only [isInitEv, Bool.false_eq_true, if_false, add_zero]
        have h1 : (modServer t (fun sv => { sv with total_wait_time := sv.total_wait_time +
            (st1.now - (getReq st1.reqs rid).wait_start) }) st.sys).total_requests =
            st.sys.total_requests := (modServer_proj _ _ _).1
        have h2 : (modServer t (fun sv => { sv with total_wait_time := sv.total_wait_time +
            (st1.now - (getReq st1.reqs rid).wait_start) }) st.sys).completed_requests =
            st.sys.completed_requests := (modServer_proj _ _ _).2.1
        rw [h1, h2]
        omega
      · intro t'
        unfold slotInv
        rw [sched_sys]
        have hw : (waitSvcUpd t (st1.now - (getReq st1.reqs rid).wait_start)
            (npExponential (1 / s.service_rate) st1.rng).1 rid
            (npExponential (1 / s.service_rate) st1.rng).2 st1).sys =
            modServer t (fun sv => { sv with total_wait_time := sv.total_wait_time +
              (st1.now - (getReq st1.reqs rid).wait_start) }) st.sys := rfl
        rw [hw, getServer_modServer]
        by_cases hne : t' = t
        · subst hne
          rw [if_pos rfl, hst]
          simp only [Option.map_some', hfp s, hu]
          constructor
          · rw [slotEvCount_sched]
            have hr : slotEvCount (waitSvcUpd t' (st1.now - (getReq st1.reqs rid).wait_start)
                (npExponential (1 / s.service_rate) st1.rng).1 rid
                (npExponential (1 / s.service_rate) st1.rng).2 st1) t' = slotEvCount st1 t' :=
              rfl
            rw [hr, hcnt0]
            simp [isSlotEv]
          · intro e2 he2 hse2
            rcases (mem_sched e2 _ _ _).mp he2 with rfl | hmem2
            · rfl
            · exfalso
              have hz : st1.events.countP (fun x => isSlotEv t' x.ev) = 0 := hcnt0
              have := List.countP_eq_zero.mp hz e2 hmem2
              simp only [hse2] at this
              exact absurd this (by simp)
        · rw [if_neg hne]
          have hold := hslot t'
          unfold slotInv at hold
          cases hv' : getServer st.sys t' with
          | none =>
            simp only [hv'] at hold ⊢
            rw [slotEvCount_sched]
            have hr : slotEvCount (waitSvcUpd t (st1.now - (getReq st1.reqs rid).wait_start)
                (npExponential (1 / s.service_rate) st1.rng).1 rid
                (npExponential (1 / s.service_rate) st1.rng).2 st1) t' = slotEvCount st1 t' :=
              rfl
            rw [hr, ← hpopSne t' hne]
            simp [isSlotEv, Ne.symm hne, hold]
          | some s' =>
            simp only [hv'] at hold ⊢
            cases hu' : s'.users with
            | none =>
              simp only [hu'] at hold ⊢
              rw [slotEvCount_sched]
              have hr : slotEvCount (waitSvcUpd t (st1.now - (getReq st1.reqs rid).wait_start)
                  (npExponential (1 / s.service_rate) st1.rng).1 rid
                  (npExponential (1 / s.service_rate) st1.rng).2 st1) t' = slotEvCount st1 t' :=
                rfl
              rw [hr, ← hpopSne t' hne]
              simp [isSlotEv, Ne.symm hne, hold]
            | some r' =>
              simp only [hu'] at hold ⊢
              obtain ⟨hcnt', hhold'⟩ := hold
              constructor
              · rw [slotEvCount_sched]
                have hr : slotEvCount (waitSvcUpd t (st1.now - (getReq st1.reqs rid).wait_start)
                    (npExponential (1 / s.service_rate) st1.rng).1 rid
                    (npExponential (1 / s.service_rate) st1.rng).2 st1) t' = slotEvCount st1 t' :=
                  rfl
                rw [hr, ← hpopSne t' hne]
                simp [isSlotEv, Ne.symm hne, hcnt']
              · intro e2 he2 hse2
                rcases (mem_sched e2 _ _ _).mp he2 with rfl | hmem2
                · exfalso
                  simp [isSlotEv, Ne.symm hne] at hse2
                · exact hhold' e2 (by rw [hev]; exact List.mem_cons_of_mem e hmem2) hse2
      · intro hen
        have hsys : (sched (e.time + (npExponential (1 / s.service_rate) st.rng).1)
            (Ev.svcDone rid t) (waitSvcUpd t (e.time - (getReq st.reqs rid).wait_start)
            (npExponential (1 / s.service_rate) st.rng).1 rid
            (npExponential (1 / s.service_rate) st.rng).2 st1)).sys =
            modServer t (fun sv => { sv with total_wait_time := sv.total_wait_time +
              (e.time - (getReq st.reqs rid).wait_start) }) st.sys := rfl
        rw [hsys] at hen
        rw [(modServer_proj _ _ _).2.2.2.1] at hen
        rw [hsys, modServer_cache_isSome]
        exact hcache hen

/-- Invariant transfer across the post-service continuation: the
completed-plus-arrivals total rises by exactly one (a hop to the next
tier counts an arrival; reaching the end counts a completion). -/
theorem svcContinue_inv (rid : ℕ) (t : Tier) (st2 : SimSt)
    (hJ1 : ∀ t' s', getServer st2.sys t' = some s' →
      s'.arrivals = s'.departures + s'.connections)
    (hslot : ∀ t', slotInv st2 t')
    (hcache : st2.sys.cache_enabled = true → st2.sys.cache_server.isSome = true) :
    (∀ t' s', getServer (svcContinue rid t st2).sys t' = some s' →
      s'.arrivals = s'.departures + s'.connections) ∧
    (∀ t', slotInv (svcContinue rid t st2) t') ∧
    ((svcContinue rid t st2).sys.cache_enabled = true →
      (svcContinue rid t st2).sys.cache_server.isSome = true) ∧
    (svcContinue rid t st2).sys.total_requests = st2.sys.total_requests ∧
    initCount (svcContinue rid t st2) = initCount st2 ∧
    servSum Server.departures (svcContinue rid t st2).sys =
      servSum Server.departures st2.sys ∧
    (svcContinue rid t st2).sys.completed_requests +
        servSum Server.arrivals (svcContinue rid t st2).sys =
      st2.sys.completed_requests + servSum Server.arrivals st2.sys + 1 := by
  cases t with
  | app i =>
    show _ ∧ _ ∧ _ ∧ _ ∧ _ ∧ _ ∧ _
    unfold svcContinue
    by_cases hen : st2.sys.cache_enabled = true
    · rw [if_pos hen]
      cases hc : st2.sys.cache with
      | none =>
        simp only [hc]
        have hvdb : getServer st2.sys .db = some st2.sys.db_server := rfl
        obtain ⟨aJ1, aSlot, aArr, aDep, aInit, aCa, aTot, aComp, aEn, -⟩ :=
          arriveAcquire_inv .db rid st2 st2.sys.db_server hvdb hJ1 hslot
        exact ⟨aJ1, aSlot, fun h => by rw [aCa]; exact hcache (by rw [← aEn]; exact h),
          aTot, aInit, aDep, by rw [aComp, aArr]; omega⟩
      | some c =>
        simp only [hc]
        have hbridge : ∀ c2 r2,
          (∀ t', getServer (setCacheRng c2 r2 st2).sys t' = getServer st2.sys t') ∧
          (∀ t', slotInv (setCacheRng c2 r2 st2) t') ∧
          ((setCacheRng c2 r2 st2).sys.cache_enabled = true →
            (setCacheRng c2 r2 st2).sys.cache_server.isSome = true) := by
          intro c2 r2
          refine ⟨fun t' => by cases t' <;> rfl, ?_, fun h => hcache h⟩
          apply slotInv_transfer st2
          · intro t'; cases t' <;> rfl
          · intro t'; rfl
          · intro t' e2 hm _; exact hm
          · exact hslot
        obtain ⟨hgs, hslot3, hcache3⟩ := hbridge
          (c.access ("req_" ++ toString (rid % 1000)) st2.rng).2.1
          (c.access ("req_" ++ toString (rid % 1000)) st2.rng).2.2
        have hJ13 : ∀ t' s', getServer (setCacheRng
            (c.access ("req_" ++ toString (rid % 1000)) st2.rng).2.1
            (c.access ("req_" ++ toString (rid % 1000)) st2.rng).2.2 st2).sys t' = some s' →
            s'.arrivals = s'.departures + s'.connections := by
          intro t' s' h'
          rw [hgs] at h'
          exact hJ1 t' s' h'
        set st3 := setCacheRng (c.access ("req_" ++ toString (rid % 1000)) st2.rng).2.1
          (c.access ("req_" ++ toString (rid % 1000)) st2.rng).2.2 st2 with hst3
        split
    -- hit: cache tier; miss: db tier — both via arriveAcquire_inv
        · have hsome : st3.sys.cache_server.isSome = true := hcache3 hen
          obtain ⟨cs, hcs⟩ := Option.isSome_iff_exists.mp hsome
          have hvc : getServer st3.sys .cacheT = some cs := hcs
          obtain ⟨aJ1, aSlot, aArr, aDep, aInit, aCa, aTot, aComp, aEn, -⟩ :=
            arriveAcquire_inv .cacheT rid st3 cs hvc hJ13 hslot3
          refine ⟨aJ1, aSlot, fun h => by rw [aCa]; exact hcache3 (by rw [← aEn]; exact h),
            aTot, aInit, aDep, ?_⟩
          have h1 : st3.sys.completed_requests = st2.sys.completed_requests := rfl
          have h2 : servSum Server.arrivals st3.sys = servSum Server.arrivals st2.sys := rfl
          rw [aComp, aArr, h1, h2]
          omega
        · have hvdb : getServer st3.sys .db = some st3.sys.db_server := rfl
          obtain ⟨aJ1, aSlot, aArr, aDep, aInit, aCa, aTot, aComp, aEn, -⟩ :=
            arriveAcquire_inv .db rid st3 st3.sys.db_server hvdb hJ13 hslot3
          refine ⟨aJ1, aSlot, fun h => by rw [aCa]; exact hcache3 (by rw [← aEn]; exact h),
            aTot, aInit, aDep, ?_⟩
          have h1 : st3.sys.completed_requests = st2.sys.completed_requests := rfl
          have h2 : servSum Server.arrivals st3.sys = servSum Server.arrivals st2.sys := rfl
          rw [aComp, aArr, h1, h2]
          omega
    · rw [if_neg hen]
      have hvdb : getServer st2.sys .db = some st2.sys.db_server := rfl
      obtain ⟨aJ1, aSlot, aArr, aDep, aInit, aCa, aTot, aComp, aEn, -⟩ :=
        arriveAcquire_inv .db rid st2 st2.sys.db_server hvdb hJ1 hslot
      exact ⟨aJ1, aSlot, fun h => by rw [aCa]; exact hcache (by rw [← aEn]; exact h),
        aTot, aInit, aDep, by rw [aComp, aArr]; omega⟩
  | cacheT =>
    show _ ∧ _ ∧ _ ∧ _ ∧ _ ∧ _ ∧ _
    unfold svcContinue
    have hgs : ∀ t', getServer (completeReq rid st2).sys t' = getServer st2.sys t' := by
      intro t'; cases t' <;> rfl
    refine ⟨fun t' s' h' => hJ1 t' s' (by rw [← hgs]; exact h'), ?_, fun h => hcache h,
      rfl, rfl, rfl, ?_⟩
    · apply slotInv_transfer st2
      · exact hgs
      · intro t'; rfl
      · intro t' e2 hm _; exact hm
      · exact hslot
    · have h1 : (completeReq rid st2).sys.completed_requests =
          st2.sys.completed_requests + 1 := rfl
      have h2 : servSum Server.arrivals (completeReq rid st2).sys =
          servSum Server.arrivals st2.sys := rfl
      rw [h1, h2]
      omega
  | db =>
    show _ ∧ _ ∧ _ ∧ _ ∧ _ ∧ _ ∧ _
    unfold svcContinue
    have hgs : ∀ t', getServer (completeReq rid st2).sys t' = getServer st2.sys t' := by
      intro t'; cases t' <;> rfl
    refine ⟨fun t' s' h' => hJ1 t' s' (by rw [← hgs]; exact h'), ?_, fun h => hcache h,
      rfl, rfl, rfl, ?_⟩
    · apply slotInv_transfer st2
      · exact hgs
      · intro t'; rfl
      · intro t' e2 hm _; exact hm
      · exact hslot
    · have h1 : (completeReq rid st2).sys.completed_requests =
          st2.sys.completed_requests + 1 := rfl
      have h2 : servSum Server.arrivals (completeReq rid st2).sys =
          servSum Server.arrivals st2.sys := rfl
      rw [h1, h2]
      omega

/-- Invariant transfer across the release stage: the departing request
leaves the tier (departures rise by one, occupancy falls by one) and the
slot passes coherently to the head waiter, if any. -/
theorem svcStage_inv (rid : ℕ) (t : Tier) (s : Server) (stP : SimSt)
    (hv : getServer stP.sys t = some s) (hu : s.users = some rid)
    (hcnt0 : slotEvCount stP t = 0)
    (hslotNe : ∀ t', t' ≠ t → slotInv stP t')
    (hJ1 : ∀ t' s', getServer stP.sys t' = some s' →
      s'.arrivals = s'.departures + s'.connections) :
    (∀ t' s', getServer (svcStage rid t s stP).sys t' = some s' →
      s'.arrivals = s'.departures + s'.connections) ∧
    (∀ t', slotInv (svcStage rid t s stP) t') ∧
    servSum Server.departures (svcStage rid t s stP).sys =
      servSum Server.departures stP.sys + 1 ∧
    servSum Server.arrivals (svcStage rid t s stP).sys = servSum Server.arrivals stP.sys ∧
    initCount (svcStage rid t s stP) = initCount stP ∧
    (svcStage rid t s stP).sys.total_requests = stP.sys.total_requests ∧
    (svcStage rid t s stP).sys.completed_requests = stP.sys.completed_requests ∧
    (svcStage rid t s stP).sys.cache_enabled = stP.sys.cache_enabled ∧
    (svcStage rid t s stP).sys.cache_server.isSome = stP.sys.cache_server.isSome := by
  have hs1 := hJ1 t s hv
  have hconn : s.connections = s.waitq.length + 1 := by
    simp [Server.connections, hu]
  unfold svcStage
  cases hw : s.waitq with
  | nil =>
    obtain ⟨hga, hgd, hgu, hgw⟩ := freeSlotUpd_proj (getReq stP.reqs rid) stP.now s
    have hget : ∀ t', getServer (modServer t (freeSlotUpd (getReq stP.reqs rid) stP.now)
        stP.sys) t' = if t' = t then some (freeSlotUpd (getReq stP.reqs rid) stP.now s)
        else getServer stP.sys t' := by
      intro t'
      rw [getServer_modServer]
      by_cases h : t' = t <;> simp [h, hv]
    have hgc : (freeSlotUpd (getReq stP.reqs rid) stP.now s).connections = 0 := by
      simp [Server.connections, hgu, hgw, hw]
    refine ⟨?_, ?_, ?_, ?_, rfl, (modServer_proj _ _ _).1, (modServer_proj _ _ _).2.1,
      (modServer_proj _ _ _).2.2.2.1, modServer_cache_isSome _ _ _⟩
    · intro t' s' h'
      rw [hget t'] at h'
      by_cases h : t' = t
      · rw [if_pos h] at h'
        have : s' = freeSlotUpd (getReq stP.reqs rid) stP.now s := by simpa using h'.symm
        subst this
        rw [hga, hgd, hgc]
        rw [hw] at hconn
        simp only [List.length_nil] at hconn
        omega
      · rw [if_neg h] at h'
        exact hJ1 t' s' h'
    · intro t'
      unfold slotInv
      have hsys : ({ stP with sys := modServer t (freeSlotUpd (getReq stP.reqs rid) stP.now) stP.sys } : SimSt).sys = modServer t (freeSlotUpd (getReq stP.reqs rid) stP.now) stP.sys := rfl
      rw [hsys]
      rw [hget t']
      by_cases h : t' = t
      · subst h
        rw [if_pos rfl]
        simp only [hgu]
        exact hcnt0
      · rw [if_neg h]
        have hold := hslotNe t' h
        unfold slotInv at hold
        exact hold
    · show servSum Server.departures (modServer t (freeSlotUpd (getReq stP.reqs rid)
        stP.now) stP.sys) = servSum Server.departures stP.sys + 1
      have := servSum_modServer Server.departures t
        (freeSlotUpd (getReq stP.reqs rid) stP.now) stP.sys s hv
      rw [hgd] at this
      omega
    · show servSum Server.arrivals (modServer t (freeSlotUpd (getReq stP.reqs rid)
        stP.now) stP.sys) = servSum Server.arrivals stP.sys
      have := servSum_modServer Server.arrivals t
        (freeSlotUpd (getReq stP.reqs rid) stP.now) stP.sys s hv
      rw [hga] at this
      omega
  | cons w ws =>
    obtain ⟨hga, hgd, hgu, hgw⟩ := passSlotUpd_proj (getReq stP.reqs rid) stP.now w ws s
    have hget : ∀ t', getServer (modServer t (passSlotUpd (getReq stP.reqs rid) stP.now w ws)
        stP.sys) t' = if t' = t then some (passSlotUpd (getReq stP.reqs rid) stP.now w ws s)
        else getServer stP.sys t' := by
      intro t'
      rw [getServer_modServer]
      by_cases h : t' = t <;> simp [h, hv]
    have hgc : (passSlotUpd (getReq stP.reqs rid) stP.now w ws s).connections =
        ws.length + 1 := by
      simp [Server.connections, hgu, hgw]
    refine ⟨?_, ?_, ?_, ?_, ?_, ?_, ?_, ?_, ?_⟩
    · intro t' s' h'
      rw [sched_sys] at h'
      rw [hget t'] at h'
      by_cases h : t' = t
      · rw [if_pos h] at h'
        have : s' = passSlotUpd (getReq stP.reqs rid) stP.now w ws s := by simpa using h'.symm
        subst this
        rw [hga, hgd, hgc]
        rw [hw] at hconn
        simp only [List.length_cons] at hconn
        omega
      · rw [if_neg h] at h'
        exact hJ1 t' s' h'
    · intro t'
      unfold slotInv
      rw [sched_sys]
      have hsys : ({ stP with sys := modServer t (passSlotUpd (getReq stP.reqs rid) stP.now w ws) stP.sys } : SimSt).sys = modServer t (passSlotUpd (getReq stP.reqs rid) stP.now w ws) stP.sys := rfl
      rw [hsys]
      rw [hget t']
      by_cases h : t' = t
      · subst h
        rw [if_pos rfl]
        simp only [hgu]
        constructor
        · rw [slotEvCount_sched]
          have hr : slotEvCount ({ stP with sys := modServer t' (passSlotUpd (getReq stP.reqs rid) stP.now w ws) stP.sys } : SimSt) t' = slotEvCount stP t' := rfl
          rw [hr, hcnt0]
          simp [isSlotEv]
        · intro e2 he2 hse2
          rcases (mem_sched e2 _ _ _).mp he2 with rfl | hmem2
          · rfl
          · exfalso
            have hz : stP.events.countP (fun x => isSlotEv t' x.ev) = 0 := hcnt0
            have := List.countP_eq_zero.mp hz e2 hmem2
            simp only [hse2] at this
            exact absurd this (by simp)
      · rw [if_neg h]
        have hold := hslotNe t' h
        unfold slotInv at hold
        cases hv' : getServer stP.sys t' with
        | none =>
          simp only [hv'] at hold ⊢
          rw [slotEvCount_sched]
          have hr : slotEvCount ({ stP with sys := modServer t (passSlotUpd (getReq stP.reqs rid) stP.now w ws) stP.sys } : SimSt) t' = slotEvCount stP t' := rfl
          rw [hr, hold]
          simp [isSlotEv, Ne.symm h]
        | some s' =>
          simp only [hv'] at hold ⊢
          cases hu' : s'.users with
          | none =>
            simp only [hu'] at hold ⊢
            rw [slotEvCount_sched]
            have hr : slotEvCount ({ stP with sys := modServer t (passSlotUpd (getReq stP.reqs rid) stP.now w ws) stP.sys } : SimSt) t' = slotEvCount stP t' := rfl
            rw [hr, hold]
            simp [isSlotEv, Ne.symm h]
          | some r' =>
            simp only [hu'] at hold ⊢
            obtain ⟨hcnt', hhold'⟩ := hold
            constructor
            · rw [slotEvCount_sched]
              have hr : slotEvCount ({ stP with sys := modServer t (passSlotUpd (getReq stP.reqs rid) stP.now w ws) stP.sys } : SimSt) t' = slotEvCount stP t' := rfl
              rw [hr, hcnt']
              simp [isSlotEv, Ne.symm h]
            · intro e2 he2 hse2
              rcases (mem_sched e2 _ _ _).mp he2 with rfl | hmem2
              · exfalso
                simp [isSlotEv, Ne.symm h] at hse2
              · exact hhold' e2 hmem2 hse2
    · show servSum Server.departures (modServer t (passSlotUpd (getReq stP.reqs rid)
        stP.now w ws) stP.sys) = servSum Server.departures stP.sys + 1
      have := servSum_modServer Server.departures t
        (passSlotUpd (getReq stP.reqs rid) stP.now w ws) stP.sys s hv
      rw [hgd] at this
      omega
    · show servSum Server.arrivals (modServer t (passSlotUpd (getReq stP.reqs rid)
        stP.now w ws) stP.sys) = servSum Server.arrivals stP.sys
      have := servSum_modServer Server.arrivals t
        (passSlotUpd (getReq stP.reqs rid) stP.now w ws) stP.sys s hv
      rw [hga] at this
      omega
    · rw [initCount_sched]
      have hr : initCount ({ stP with sys := modServer t (passSlotUpd (getReq stP.reqs rid) stP.now w ws) stP.sys } : SimSt) = initCount stP := rfl
      rw [hr]
      simp [isInitEv]
    · show (modServer t (passSlotUpd (getReq stP.reqs rid) stP.now w ws)
        stP.sys).total_requests = stP.sys.total_requests
      exact (modServer_proj _ _ _).1
    · show (modServer t (passSlotUpd (getReq stP.reqs rid) stP.now w ws)
        stP.sys).completed_requests = stP.sys.completed_requests
      exact (modServer_proj _ _ _).2.1
    · show (modServer t (passSlotUpd (getReq stP.reqs rid) stP.now w ws)
        stP.sys).cache_enabled = stP.sys.cache_enabled
      exact (modServer_proj _ _ _).2.2.2.1
    · show (modServer t (passSlotUpd (getReq stP.reqs rid) stP.now w ws)
        stP.sys).cache_server.isSome = stP.sys.cache_server.isSome
      exact modServer_cache_isSome _ _ _

/-- Preservation of the invariant when a `svcDone` resumption is
dispatched: the slot holder departs its tier and the continuation either
hops to the next tier or completes, keeping the global count balanced. -/
theorem inv_svcDone (st : SimSt) (e : Evt) (rest : List Evt) (rid : ℕ) (t : Tier)
    (hev : st.events = e :: rest) (he : e.ev = .svcDone rid t)
    (hInv : SimInv st) :
    SimInv (handleSvcDone rid t { st with now := e.time, events := rest }) := by
  obtain ⟨hJ1, hJ2, hslot, hcache⟩ := hInv
  obtain ⟨hpopI, hpopS⟩ := counts_pop st e rest e.time hev
  rw [he] at hpopI hpopS
  simp only [isInitEv, Bool.false_eq_true, if_false, add_zero] at hpopI
  set st1 : SimSt := { st with now := e.time, events := rest } with hst1
  have hpopSt : slotEvCount st t = slotEvCount st1 t + 1 := by
    have := hpopS t
    simpa [isSlotEv] using this
  have hpopSne : ∀ t', t' ≠ t → slotEvCount st t' = slotEvCount st1 t' := by
    intro t' hne
    have := hpopS t'
    simpa [isSlotEv, Ne.symm hne] using this
  unfold handleSvcDone
  cases hv : getServer st1.sys t with
  | none =>
    exfalso
    have hst : getServer st.sys t = none := hv
    have h0 := hslot t
    unfold slotInv at h0
    simp only [hst] at h0
    omega
  | some s =>
    have hst : getServer st.sys t = some s := hv
    have h0 := hslot t
    unfold slotInv at h0
    simp only [hst] at h0
    cases hu : s.users with
    | none =>
      exfalso
      simp only [hu] at h0
      omega
    | some r =>
      simp only [hu] at h0
      obtain ⟨hcnt1, hhold⟩ := h0
      have hrid : rid = r := by
        have hmem : e ∈ st.events := by rw [hev]; exact List.mem_cons_self e rest
        have := hhold e hmem (by rw [he]; simp [isSlotEv])
        rw [he] at this
        simpa [evHolder] using this
      subst hrid
      simp only [hv]
      have hcnt0 : slotEvCount st1 t = 0 := by omega
      have hslotNe : ∀ t', t' ≠ t → slotInv st1 t' := by
        intro t' hne
        have hold := hslot t'
        unfold slotInv at hold ⊢
        have hge : getServer st1.sys t' = getServer st.sys t' := rfl
        rw [hge]
        cases hv' : getServer st.sys t' with
        | none =>
          simp only [hv'] at hold ⊢
          rw [← hpopSne t' hne]
          exact hold
        | some s' =>
          simp only [hv'] at hold ⊢
          cases hu' : s'.users with
          | none =>
            simp only [hu'] at hold ⊢
            rw [← hpopSne t' hne]
            exact hold
          | some r' =>
            simp only [hu'] at hold ⊢
            obtain ⟨hc', hh'⟩ := hold
            refine ⟨by rw [← hpopSne t' hne]; exact hc', ?_⟩
            intro e2 he2 hse2
            exact hh' e2 (by rw [hev]; exact List.mem_cons_of_mem e he2) hse2
      have hJ1' : ∀ t' s', getServer st1.sys t' = some s' →
          s'.arrivals = s'.departures + s'.connections := fun t' s' h' => hJ1 t' s' h'
      obtain ⟨sJ1, sSlot, sDep, sArr, sInit, sTot, sComp, sEn, sCs⟩ :=
        svcStage_inv rid t s st1 hv hu hcnt0 hslotNe hJ1'
      have hcacheS : (svcStage rid t s st1).sys.cache_enabled = true →
          (svcStage rid t s st1).sys.cache_server.isSome = true := by
        intro h
        rw [sCs]
        exact hcache (by rw [← sEn]; exact h)
      obtain ⟨cJ1, cSlot, cCa, cTot, cInit, cDep, cBal⟩ :=
        svcContinue_inv rid t (svcStage rid t s st1) sJ1 sSlot hcacheS
      refine ⟨cJ1, ?_, cSlot, cCa⟩
      have hsys1 : st1.sys = st.sys := rfl
      rw [hsys1] at sDep sArr sTot sComp
      rw [cTot, sTot, cDep, sDep, cInit, sInit, ← hpopI]
      omega

/-- The invariant depends only on the system and the pending events. -/
theorem SimInv_transfer_st (st st2 : SimSt) (hs : st2.sys = st.sys)
    (he : st2.events = st.events) (h : SimInv st) : SimInv st2 := by
  obtain ⟨h1, h2, h3, h4⟩ := h
  have hic : initCount st2 = initCount st := by unfold initCount; rw [he]
  have hsc : ∀ t, slotEvCount st2 t = slotEvCount st t := by
    intro t; unfold slotEvCount; rw [he]
  refine ⟨?_, ?_, ?_, ?_⟩
  · intro t s hgt
    exact h1 t s (by rw [← hs]; exact hgt)
  · rw [hs, hic]
    exact h2
  · intro t
    have hold := h3 t
    unfold slotInv at hold ⊢
    rw [hs]
    cases hv : getServer st.sys t with
    | none =>
      simp only [hv] at hold ⊢
      rw [hsc]
      exact hold
    | some s =>
      simp only [hv] at hold ⊢
      cases hu : s.users with
      | none =>
        simp only [hu] at hold ⊢
        rw [hsc]
        exact hold
      | some r =>
        simp only [hu] at hold ⊢
        obtain ⟨hc, hh⟩ := hold
        exact ⟨by rw [hsc]; exact hc,
          fun e2 he2 hs2 => hh e2 (by rw [← he]; exact he2) hs2⟩
  · rw [hs]
    exact h4

/-- Invariant status of a scheduler step outcome: every non-crashing
outcome satisfies the invariant. -/
def stepOk : StepRes → Prop
  | .next st2 => SimInv st2
  | .halt st2 => SimInv st2
  | .crash => True

/-- One scheduler step preserves the simulation invariant. -/
theorem stepSim_inv (cfg : SimConfig) (lbFuel : ℕ) (st : SimSt)
    (hInv : SimInv st) : stepOk (stepSim cfg lbFuel st) := by
  unfold stepSim
  cases hev : st.events with
  | nil =>
    simp only
    show SimInv _
    exact SimInv_transfer_st st _ rfl hev.symm hInv
  | cons e rest =>
    simp only
    by_cases ht : e.time < cfg.simulation_time
    · rw [if_pos ht]
      cases he : e.ev with
      | genInit =>
        simp only
        show SimInv _
        exact inv_genInit cfg st e rest hev (by rw [he]; rfl) (fun t => by rw [he]; rfl) hInv
      | genWake =>
        simp only
        show SimInv _
        exact inv_genWake cfg st e rest hev (by rw [he]; rfl) (fun t => by rw [he]; rfl) hInv
      | procInit rid =>
        simp only
        cases hp : handleProcInit lbFuel rid { st with now := e.time, events := rest } with
        | none =>
          simp only
          trivial
        | some st2 =>
          simp only
          show SimInv _
          exact inv_procInit lbFuel st e rest rid st2 hev he hInv hp
      | granted rid t =>
        simp only
        show SimInv _
        exact inv_granted st e rest rid t hev he hInv
      | svcDone rid t =>
        simp only
        show SimInv _
        exact inv_svcDone st e rest rid t hev he hInv
    · rw [if_neg ht]
      show SimInv _
      exact SimInv_transfer_st st _ rfl hev.symm hInv

/-- Any per-server counter that vanishes on fresh servers sums to zero
over the fresh system. -/
theorem servSum_initState (cfg : SimConfig) (g : Rng) (f : Server → ℕ)
    (hf : ∀ nm r, f (Server.init nm r) = 0) : servSum f (initState cfg g).sys = 0 := by
  unfold servSum
  apply List.sum_eq_zero
  intro x hx
  rw [List.mem_map] at hx
  obtain ⟨s, hs, hxs⟩ := hx
  subst hxs
  unfold allServers initState ThreeTierSystem.init at hs
  simp only at hs
  rw [List.mem_append] at hs
  rcases hs with hs | hs
  · rw [List.mem_map] at hs
    obtain ⟨i, -, hi⟩ := hs
    rw [← hi]
    exact hf _ _
  · rw [List.mem_cons] at hs
    rcases hs with hs | hs
    · rw [hs]
      exact hf _ _
    · by_cases hce : cfg.cache_enabled = true
      · rw [if_pos hce] at hs
        have hse : s = Server.init "cache" cfg.cache_service_rate := by simpa using hs
        rw [hse]
        exact hf _ _
      · rw [if_neg hce] at hs
        simp at hs

/-- The number of pending slot events of the initial state is zero. -/
theorem slotEvCount_initState (cfg : SimConfig) (g : Rng) (t : Tier) :
    slotEvCount (initState cfg g) t = 0 := by
  unfold slotEvCount initState
  simp [isSlotEv]

/-- The initial state satisfies the simulation invariant. -/
theorem initState_inv (cfg : SimConfig) (g : Rng) : SimInv (initState cfg g) := by
  have hfresh : ∀ t s, getServer (initState cfg g).sys t = some s →
      s.arrivals = 0 ∧ s.departures = 0 ∧ s.users = none ∧ s.waitq = [] := by
    intro t s h
    cases t with
    | app i =>
      simp only [initState, ThreeTierSystem.init, getServer] at h
      rw [List.get?_eq_getElem?, List.getElem?_map] at h
      cases h' : (List.range cfg.num_app_servers)[i]? with
      | none => rw [h'] at h; simp at h
      | some j =>
        rw [h'] at h
        simp only [Option.map_some', Option.some.injEq] at h
        subst h
        exact ⟨rfl, rfl, rfl, rfl⟩
    | cacheT =>
      simp only [initState, ThreeTierSystem.init, getServer] at h
      split at h
      · simp only [Option.some.injEq] at h
        subst h
        exact ⟨rfl, rfl, rfl, rfl⟩
      · exact absurd h (by simp)
    | db =>
      simp only [initState, ThreeTierSystem.init, getServer, Option.some.injEq] at h
      subst h
      exact ⟨rfl, rfl, rfl, rfl⟩
  have hsum0 := servSum_initState cfg g
  have hcnt := slotEvCount_initState cfg g
  refine ⟨?_, ?_, ?_, ?_⟩
  · intro t s h
    obtain ⟨ha, hd, hu, hw⟩ := hfresh t s h
    simp [ha, hd, Server.connections, hu, hw]
  · have h1 := hsum0 Server.departures (fun nm r => rfl)
    have h2 := hsum0 Server.arrivals (fun nm r => rfl)
    rw [h1, h2]
    simp [initState, ThreeTierSystem.init, initCount, isInitEv]
  · intro t
    unfold slotInv
    cases hv : getServer (initState cfg g).sys t with
    | none => exact hcnt t
    | some s =>
      obtain ⟨-, -, hu, -⟩ := hfresh t s hv
      simp only [hu]
      exact hcnt t
  · intro h
    simp only [initState, ThreeTierSystem.init] at h ⊢
    rw [if_pos h]
    rfl

/-- `runSteps` preserves the invariant on every non-crashing run. -/
theorem runSteps_inv (cfg : SimConfig) (lbFuel : ℕ) :
    ∀ (n : ℕ) (st st2 : SimSt), SimInv st → runSteps cfg lbFuel n st = some st2 →
      SimInv st2
  | 0, st, st2, hInv, h => by
    unfold runSteps at h
    simp only [Option.some.injEq] at h
    subst h
    exact hInv
  | n + 1, st, st2, hInv, h => by
    have hstep := stepSim_inv cfg lbFuel st hInv
    unfold runSteps at h
    cases hr : stepSim cfg lbFuel st with
    | halt st3 =>
      rw [hr] at h hstep
      simp only [Option.some.injEq] at h
      subst h
      exact hstep
    | next st3 =>
      rw [hr] at h hstep
      exact runSteps_inv cfg lbFuel n st3 st2 hstep h
    | crash =>
      rw [hr] at h
      simp at h

/-- `simLoop` preserves the invariant on every completed run. -/
theorem simLoop_inv (cfg : SimConfig) (lbFuel : ℕ) :
    ∀ (n : ℕ) (st st2 : SimSt), SimInv st → simLoop cfg lbFuel n st = some st2 →
      SimInv st2
  | 0, _, _, _, h => by simp [simLoop] at h
  | n + 1, st, st2, hInv, h => by
    have hstep := stepSim_inv cfg lbFuel st hInv
    unfold simLoop at h
    cases hr : stepSim cfg lbFuel st with
    | halt st3 =>
      rw [hr] at h hstep
      simp only [Option.some.injEq] at h
      subst h
      exact hstep
    | next st3 =>
      rw [hr] at h hstep
      exact simLoop_inv cfg lbFuel n st3 st2 hstep h
    | crash =>
      rw [hr] at h
      simp at h

/-- The initial state satisfies the unknown-strategy invariant. -/
theorem initState_uinv (cfg : SimConfig) (g : Rng) : UInv cfg (initState cfg g) :=
  ⟨slotEvCount_initState cfg g,
   servSum_initState cfg g Server.arrivals (fun _ _ => rfl), rfl, rfl⟩

/-- Scheduling a non-slot event keeps the pending slot-event count at
zero. -/
theorem slotEvCount_sched_zero (tm : ℚ) (ev : Ev) (stx : SimSt) (t : Tier)
    (hev : isSlotEv t ev = false)
    (h : stx.events.countP (fun x => isSlotEv t x.ev) = 0) :
    (sched tm ev stx).events.countP (fun x => isSlotEv t x.ev) = 0 := by
  rw [countP_sched, h]
  simp [hev]

/-- One scheduler step preserves the unknown-strategy invariant: the
generator events only reschedule themselves and admit requests, a
`procInit` dispatch crashes in `select_server`, and slot events cannot be
pending at all. -/
theorem stepSim_uinv (cfg : SimConfig) (lbFuel : ℕ) (st : SimSt)
    (h1 : cfg.load_balancing_strategy ≠ "round_robin")
    (h2 : cfg.load_balancing_strategy ≠ "random")
    (h3 : cfg.load_balancing_strategy ≠ "least_connections")
    (hU : UInv cfg st) : uStepOk cfg (stepSim cfg lbFuel st) := by
  obtain ⟨hslot, harr, hcomp, hstrat⟩ := hU
  unfold stepSim
  cases hev : st.events with
  | nil =>
    simp only
    show UInv cfg _
    exact ⟨fun t => by simp [slotEvCount], harr, hcomp, hstrat⟩
  | cons e rest =>
    simp only
    have hrest : ∀ t, rest.countP (fun x => isSlotEv t x.ev) = 0 := by
      intro t
      have hc := hslot t
      unfold slotEvCount at hc
      rw [hev, List.countP_cons] at hc
      omega
    by_cases ht : e.time < cfg.simulation_time
    · rw [if_pos ht]
      cases he : e.ev with
      | genInit =>
        simp only
        show UInv cfg _
        unfold handleGenInit
        split
        all_goals first
          | exact ⟨fun t => slotEvCount_sched_zero _ _ _ t rfl (hrest t), harr, hcomp, hstrat⟩
          | exact ⟨fun t => hrest t, harr, hcomp, hstrat⟩
      | genWake =>
        simp only
        show UInv cfg _
        unfold handleGenWake
        split
        all_goals first
          | exact ⟨fun t => slotEvCount_sched_zero _ _ _ t rfl
              (slotEvCount_sched_zero _ _ _ t rfl (hrest t)), harr, hcomp, hstrat⟩
          | exact ⟨fun t => hrest t, harr, hcomp, hstrat⟩
      | procInit rid =>
        simp only
        cases hp : handleProcInit lbFuel rid { st with now := e.time, events := rest } with
        | none =>
          simp only
          trivial
        | some st2 =>
          exfalso
          unfold handleProcInit at hp
          have hst : ({ st with now := e.time, events := rest } : SimSt).sys.load_balancer.strategy = cfg.load_balancing_strategy := hstrat
          rw [select_server_unknown_none lbFuel _ _ _ (by rw [hst]; exact h1)
            (by rw [hst]; exact h2) (by rw [hst]; exact h3)] at hp
          simp at hp
      | granted rid t =>
        exfalso
        have hc := hslot t
        unfold slotEvCount at hc
        rw [hev, List.countP_cons, he] at hc
        simp [isSlotEv] at hc
      | svcDone rid t =>
        exfalso
        have hc := hslot t
        unfold slotEvCount at hc
        rw [hev, List.countP_cons, he] at hc
        simp [isSlotEv] at hc
    · rw [if_neg ht]
      show UInv cfg _
      refine ⟨fun t => ?_, harr, hcomp, hstrat⟩
      have hc := hslot t
      unfold slotEvCount at hc ⊢
      rw [hev] at hc
      exact hc

/-- `runSteps` preserves the unknown-strategy invariant. -/
theorem runSteps_uinv (cfg : SimConfig) (lbFuel : ℕ)
    (h1 : cfg.load_balancing_strategy ≠ "round_robin")
    (h2 : cfg.load_balancing_strategy ≠ "random")
    (h3 : cfg.load_balancing_strategy ≠ "least_connections") :
    ∀ (n : ℕ) (st st2 : SimSt), UInv cfg st → runSteps cfg lbFuel n st = some st2 →
      UInv cfg st2
  | 0, st, st2, hU, h => by
    unfold runSteps at h
    simp only [Option.some.injEq] at h
    subst h
    exact hU
  | n + 1, st, st2, hU, h => by
    have hstep := stepSim_uinv cfg lbFuel st h1 h2 h3 hU
    unfold runSteps at h
    cases hr : stepSim cfg lbFuel st with
    | halt st3 =>
      rw [hr] at h hstep
      simp only [Option.some.injEq] at h
      subst h
      exact hstep
    | next st3 =>
      rw [hr] at h hstep
      exact runSteps_uinv cfg lbFuel h1 h2 h3 n st3 st2 hstep h
    | crash =>
      rw [hr] at h
      simp at h

/-- `simLoop` preserves the unknown-strategy invariant. -/
theorem simLoop_uinv (cfg : SimConfig) (lbFuel : ℕ)
    (h1 : cfg.load_balancing_strategy ≠ "round_robin")
    (h2 : cfg.load_balancing_strategy ≠ "random")
    (h3 : cfg.load_balancing_strategy ≠ "least_connections") :
    ∀ (n : ℕ) (st st2 : SimSt), UInv cfg st → simLoop cfg lbFuel n st = some st2 →
      UInv cfg st2
  | 0, _, _, _, h => by simp [simLoop] at h
  | n + 1, st, st2, hU, h => by
    have hstep := stepSim_uinv cfg lbFuel st h1 h2 h3 hU
    unfold simLoop at h
    cases hr : stepSim cfg lbFuel st with
    | halt st3 =>
      rw [hr] at h hstep
      simp only [Option.some.injEq] at h
      subst h
      exact hstep
    | next st3 =>
      rw [hr] at h hstep
      exact simLoop_uinv cfg lbFuel h1 h2 h3 n st3 st2 hstep h
    | crash =>
      rw [hr] at h
      simp at h

/-- Every owned server is addressed by some tier. -/
theorem mem_allServers (sys : ThreeTierSystem) (s : Server)
    (h : s ∈ allServers sys) : ∃ t, getServer sys t = some s := by
  unfold allServers at h
  rw [List.mem_append] at h
  rcases h with h | h
  · obtain ⟨n, hn⟩ := List.get?_of_mem h
    exact ⟨.app n, hn⟩
  · rw [List.mem_cons] at h
    rcases h with h | h
    · exact ⟨.db, by rw [h]; rfl⟩
    · cases hc : sys.cache_server with
      | none =>
        rw [hc] at h
        simp at h
      | some c =>
        rw [hc] at h
        rw [List.mem_singleton] at h
        rw [h]
        exact ⟨.cacheT, hc⟩

/-- Pointwise bounds on the owned servers sum. -/
theorem servSum_le_servSum (f g : Server → ℕ) (sys : ThreeTierSystem)
    (h : ∀ s ∈ allServers sys, f s ≤ g s) : servSum f sys ≤ servSum g sys :=
  List.sum_le_sum h

/-- C1: with a fixed integer `random_seed` and identical configuration
arguments, two invocations of `run_simulation` return identical metrics
dictionaries: `np.random.seed(random_seed)` replaces the whole global
random state — the only state an invocation reads besides its arguments —
so the pre-existing states `g1`, `g2` are irrelevant and the results are
literally equal. -/
theorem c1_seeded_determinism (fuel lbFuel : ℕ) (cfg : SimConfig) (s : ℕ)
    (g1 g2 : Rng) :
    run_simulation fuel lbFuel cfg (some s) g1 =
      run_simulation fuel lbFuel cfg (some s) g2 := rfl

/-- C5: at every state reachable from the start of a run, every server
has `departures ≤ arrivals`, system-wide `completed_requests ≤
total_requests`, and any server with no outstanding in-flight requests
(no holder and empty queue, i.e. `connections = 0`) has `departures =
arrivals`. -/
theorem c5_conservation (cfg : SimConfig) (g : Rng) (lbFuel n : ℕ) (st2 : SimSt)
    (h : runSteps cfg lbFuel n (initState cfg g) = some st2) :
    (∀ t s, getServer st2.sys t = some s → s.departures ≤ s.arrivals) ∧
    st2.sys.completed_requests ≤ st2.sys.total_requests ∧
    (∀ t s, getServer st2.sys t = some s → s.connections = 0 →
      s.departures = s.arrivals) := by
  have hInv := runSteps_inv cfg lbFuel n (initState cfg g) st2 (initState_inv cfg g) h
  obtain ⟨hJ1, hJ2, -, -⟩ := hInv
  have hle : servSum Server.departures st2.sys ≤ servSum Server.arrivals st2.sys := by
    apply servSum_le_servSum
    intro s hs
    obtain ⟨t, ht⟩ := mem_allServers st2.sys s hs
    have := hJ1 t s ht
    omega
  exact ⟨fun t s hs => by have := hJ1 t s hs; omega, by omega,
    fun t s hs hc => by have := hJ1 t s hs; omega⟩

/-- Concrete instance of `c5_conservation`: the fresh state of a run is
reachable in zero steps and satisfies the system-wide bound. -/
theorem c5_conservation_witness :
    runSteps cfgRR 5 0 (initState cfgRR (npSeed 1)) = some (initState cfgRR (npSeed 1)) ∧
    (initState cfgRR (npSeed 1)).sys.completed_requests ≤
      (initState cfgRR (npSeed 1)).sys.total_requests :=
  ⟨rfl, (c5_conservation cfgRR (npSeed 1) 5 0 (initState cfgRR (npSeed 1)) rfl).2.1⟩

set_option maxHeartbeats 4000000 in
/-- C3 is REFUTED: `env.run(until=simulation_time)` abandons in-flight
requests at the horizon.  With one app server of mean service time 100
and horizon 1 (seed 1), the returned metrics report three admitted
requests of which none completed, and an app tier with three arrivals and
zero departures — `completed_requests ≠ total_requests` and
`departures ≠ arrivals` at return. -/
theorem c3_run_to_completion_counterexample :
    (run_simulation 20 5 cfgRR (some 1) ⟨0, 0⟩).map
      (fun m => (m.system.total_requests, m.system.completed_requests,
        m.app_server.arrivals, m.app_server.departures)) = some (3, 0, 3, 0) ∧
    (3 : ℕ) ≠ 0 := by
  refine ⟨?_, by decide⟩
  norm_num [run_simulation, simLoop, stepSim, initState, npSeed, npRandom, npExponential,
    sched, insertEvt, handleGenInit, handleGenWake, handleProcInit, handleGranted,
    handleSvcDone, svcStage, svcContinue, arriveAcquire, completeReq, admitReq, setRng,
    setLB, setCacheRng, waitSvcUpd, arrRecUpd, seizeUpd, enqueueUpd, svcStatsUpd,
    freeSlotUpd, passSlotUpd, getReq, setReq, getServer, modServer, listModify,
    LoadBalancer.select_server, chooseIndex, minConnections, lcCands, natListMin,
    Server.connections, ThreeTierSystem.init, Server.init, LoadBalancer.init, Cache.init,
    Cache.access, metricsOf, Server.get_metrics, listMean, Server.get_utilization, qlArea,
    Server.get_avg_queue_length, Server.get_avg_response_time, Server.get_throughput,
    Server.record_queue_length, cfgRR]

/-- C3 amended: what does hold at every return of `run_simulation` is the
one-sided conservation — completions never exceed admissions, and no tier
reports more departures than arrivals; the claimed equalities fail for
requests still in flight at the horizon. -/
theorem c3_run_to_completion_amended (fuel lbFuel : ℕ) (cfg : SimConfig)
    (seed : Option ℕ) (g : Rng) (m : Metrics)
    (h : run_simulation fuel lbFuel cfg seed g = some m) :
    m.system.completed_requests ≤ m.system.total_requests ∧
    m.app_server.departures ≤ m.app_server.arrivals ∧
    m.db_server.departures ≤ m.db_server.arrivals := by
  unfold run_simulation at h
  rw [Option.map_eq_some'] at h
  obtain ⟨st2, hst2, hm⟩ := h
  have hInv := simLoop_inv cfg lbFuel fuel _ st2 (initState_inv cfg _) hst2
  obtain ⟨hJ1, -, -, -⟩ := hInv
  subst hm
  refine ⟨?_, ?_, ?_⟩
  · show st2.sys.completed_requests ≤ st2.sys.total_requests
    have hle : servSum Server.departures st2.sys ≤ servSum Server.arrivals st2.sys := by
      apply servSum_le_servSum
      intro s hs
      obtain ⟨t, ht⟩ := mem_allServers st2.sys s hs
      have := hJ1 t s ht
      omega
    have hInv2 := simLoop_inv cfg lbFuel fuel _ st2 (initState_inv cfg _) hst2
    obtain ⟨-, hJ2, -, -⟩ := hInv2
    omega
  · show (st2.sys.app_servers.map Server.departures).sum ≤
      (st2.sys.app_servers.map Server.arrivals).sum
    apply List.sum_le_sum
    intro s hs
    obtain ⟨n, hn⟩ := List.get?_of_mem hs
    have := hJ1 (.app n) s hn
    omega
  · show st2.sys.db_server.departures ≤ st2.sys.db_server.arrivals
    have := hJ1 .db st2.sys.db_server rfl
    omega

/-- Concrete instance of `c3_run_to_completion_amended`: the horizon-0
round-robin run returns immediately and its metrics satisfy the bound. -/
theorem c3_run_to_completion_amended_witness :
    run_simulation 1 1 cfgRR0 none ⟨0, 0⟩ =
      some (metricsOf cfgRR0 none { initState cfgRR0 ⟨0, 0⟩ with now := 0 }) ∧
    (metricsOf cfgRR0 none { initState cfgRR0 ⟨0, 0⟩ with now := 0
      }).system.completed_requests ≤
      (metricsOf cfgRR0 none { initState cfgRR0 ⟨0, 0⟩ with now := 0
        }).system.total_requests := by
  have hyp : run_simulation 1 1 cfgRR0 none ⟨0, 0⟩ =
      some (metricsOf cfgRR0 none { initState cfgRR0 ⟨0, 0⟩ with now := 0 }) := by
    norm_num [run_simulation, simLoop, stepSim, initState, cfgRR0]
  exact ⟨hyp, (c3_run_to_completion_amended 1 1 cfgRR0 none ⟨0, 0⟩ _ hyp).1⟩

/-- `select_server` fails on the literal `"bogus"` balancer state, for
every fuel budget. -/
theorem select_server_bogus (fuel : ℕ) (servers : List Server) (rng : Rng) :
    LoadBalancer.select_server fuel ⟨"bogus", 0, 0⟩ servers rng = none :=
  select_server_unknown_none fuel _ servers rng (by decide) (by decide) (by decide)

set_option maxHeartbeats 4000000 in
/-- C2 is REFUTED in its timing and error-kind parts: an unknown strategy
string passes no configuration validation and scheduling does start —
after two dispatched events of the `"bogus"` run a request has already
been admitted (`total_requests = 1`) with no error raised; the run only
dies later, with an uncaught recursion error from `select_server` at the
first `procInit` dispatch (modelled as `none`), not a distinguishable
configuration error before scheduling. -/
theorem c2_unknown_strategy_counterexample :
    (runSteps cfgBogus 5 2 (initState cfgBogus (npSeed 1))).map
      (fun st => st.sys.total_requests) = some 1 ∧
    run_simulation 20 5 cfgBogus (some 1) ⟨0, 0⟩ = none := by
  constructor
  · norm_num [runSteps, stepSim, initState, npSeed, npRandom, npExponential, sched,
      insertEvt, handleGenInit, handleGenWake, admitReq, setRng, getServer,
      ThreeTierSystem.init, Server.init, LoadBalancer.init, cfgBogus]
  · norm_num [run_simulation, simLoop, stepSim, initState, npSeed, npRandom,
      npExponential, sched, insertEvt, handleGenInit, handleGenWake, handleProcInit,
      admitReq, setRng, getServer, modServer, listModify, select_server_bogus,
      ThreeTierSystem.init, Server.init, LoadBalancer.init, cfgBogus]

/-- C2 amended: the true behaviour on an unknown strategy string.  No
default is silently substituted and no partial progress is ever reported:
a run either dies in `select_server` (modelled as `none`) or returns
metrics in which no request was ever dispatched to any server tier — zero
app-tier and db-tier arrivals and zero completions.  The failure is an
uncaught recursion error at the first dispatch, not a configuration
check before scheduling. -/
theorem c2_unknown_strategy_amended (fuel lbFuel : ℕ) (cfg : SimConfig)
    (seed : Option ℕ) (g : Rng) (m : Metrics)
    (h1 : cfg.load_balancing_strategy ≠ "round_robin")
    (h2 : cfg.load_balancing_strategy ≠ "random")
    (h3 : cfg.load_balancing_strategy ≠ "least_connections")
    (h : run_simulation fuel lbFuel cfg seed g = some m) :
    m.app_server.arrivals = 0 ∧ m.db_server.arrivals = 0 ∧
    m.system.completed_requests = 0 := by
  unfold run_simulation at h
  rw [Option.map_eq_some'] at h
  obtain ⟨st2, hst2, hm⟩ := h
  have hU := simLoop_uinv cfg lbFuel h1 h2 h3 fuel _ st2 (initState_uinv cfg _) hst2
  obtain ⟨-, harr, hcomp, -⟩ := hU
  unfold servSum allServers at harr
  rw [List.map_append, List.sum_append, List.map_cons, List.sum_cons] at harr
  subst hm
  refine ⟨?_, ?_, hcomp⟩
  · show (st2.sys.app_servers.map Server.arrivals).sum = 0
    omega
  · show st2.sys.db_server.arrivals = 0
    omega

/-- Concrete instance of `c2_unknown_strategy_amended`: the horizon-0
`"bogus"` run returns at once, with zero app-tier arrivals. -/
theorem c2_unknown_strategy_amended_witness :
    cfgBogus0.load_balancing_strategy ≠ "round_robin" ∧
    run_simulation 1 1 cfgBogus0 none ⟨0, 0⟩ =
      some (metricsOf cfgBogus0 none { initState cfgBogus0 ⟨0, 0⟩ with now := 0 }) ∧
    (metricsOf cfgBogus0 none { initState cfgBogus0 ⟨0, 0⟩ with now := 0
      }).app_server.arrivals = 0 := by
  have hyp : run_simulation 1 1 cfgBogus0 none ⟨0, 0⟩ =
      some (metricsOf cfgBogus0 none { initState cfgBogus0 ⟨0, 0⟩ with now := 0 }) := by
    norm_num [run_simulation, simLoop, stepSim, initState, cfgBogus0]
  exact ⟨by decide, hyp,
    (c2_unknown_strategy_amended 1 1 cfgBogus0 none ⟨0, 0⟩ _ (by decide) (by decide)
      (by decide) hyp).1⟩
